import Mathlib

/-!
# Binject/debug — verification of the edit–relayout–reserialize pipeline

A shallow embedding of the relocation-editing core of the Binject/debug
library (ELF, Mach-O and PE/COFF), translated from the Go sources, with
theorems settling the specification claims about it.

Machine integers are modelled as `Nat` (with explicit `% 2^w` where Go's
fixed-width wrap-around matters) and `Int` for signed addends.  Byte
streams are `List Nat` with each element a byte value.
-/

deriving instance DecidableEq for Except

/-- `alignUp` from `elf/reloc_edit.go`: round `value` up to a multiple of
`align`; an alignment of 0 leaves the value unchanged. -/
def alignUp (value align : Nat) : Nat :=
  if align = 0 then value
  else if value % align = 0 then value
  else value + (align - value % align)

/-- Little-endian fixed-width byte encoding: `k` bytes of `v`, least
significant first (the shape produced by Go's `binary.Write` with
`binary.LittleEndian` for a `k`-byte unsigned field). -/
def leBytes : Nat → Nat → List Nat
  | 0, _ => []
  | k + 1, v => (v % 256) :: leBytes k (v / 256)

/-- Big-endian fixed-width byte encoding (`binary.BigEndian`). -/
def beBytes (k v : Nat) : List Nat :=
  (leBytes k v).reverse

/-- Fixed-width encoding dispatching on a little-endian flag, as the Go
code dispatches on the `File`'s `ByteOrder`. -/
def ordBytes (le : Bool) (k v : Nat) : List Nat :=
  if le then leBytes k v else beBytes k v

/-- Decode a little-endian byte list back to a `Nat`. -/
def fromLeBytes : List Nat → Nat
  | [] => 0
  | b :: bs => b % 256 + 256 * fromLeBytes bs

/-- Two's-complement image of a signed value in `k`-byte width, as Go's
`binary.Write` of a signed integer field produces. -/
def intBits (k : Nat) (i : Int) : Nat :=
  (i % ((2 : Int) ^ (8 * k))).toNat

/-- One iteration bound of the `encodeULEB128` loop: each pass emits the
low 7 bits of the remaining value and shifts it right by 7; the `fuel`
argument bounds the number of passes.  Since each pass strictly shrinks a
nonzero value, `fuel = value` always suffices (see `encodeULEB128`). -/
def ulebLoop : Nat → Nat → List Nat
  | 0, value => [value % 128]
  | fuel + 1, value =>
      if value / 128 = 0 then [value % 128]
      else (value % 128 + 128) :: ulebLoop fuel (value / 128)

/-- `encodeULEB128` from the Mach-O dyld-info encoder
(`macho` package): emit 7 bits per byte, least significant first, setting
the 0x80 continuation bit on every byte except the last. -/
def encodeULEB128 (value : Nat) : List Nat :=
  ulebLoop value value

/-- Base-128 little-endian decoder for unsigned LEB128 payload bits
(each byte contributes its low 7 bits). -/
def decodeULEB128 : List Nat → Nat
  | [] => 0
  | b :: bs => b % 128 + 128 * decodeULEB128 bs

/-- The ELF serializer's dynamic-section emission (`elf.(*File).Bytes`,
`SHT_DYNAMIC` case): for each `(tag, value)` pair visited in the Go map's
iteration order, write the pair as two fixed-width fields (4 bytes each
for ELFCLASS32, 8 bytes each for ELFCLASS64) in the file's byte order.
The iteration order of the `DynamicTags` map is unspecified in Go, so it
is passed here explicitly as the list order. -/
def dynamicSectionBytes (class64 le : Bool) (tagsInOrder : List (Nat × Nat)) : List Nat :=
  tagsInOrder.flatMap (fun tv =>
    if class64 then ordBytes le 8 tv.1 ++ ordBytes le 8 tv.2
    else ordBytes le 4 tv.1 ++ ordBytes le 4 tv.2)

/-- Structural decoder for a 64-bit little-endian dynamic section: split
the byte stream into 16-byte records and read each as a `(tag, value)`
pair. -/
def decodeDynamic64LE : List Nat → List (Nat × Nat)
  | b0 :: b1 :: b2 :: b3 :: b4 :: b5 :: b6 :: b7 ::
    c0 :: c1 :: c2 :: c3 :: c4 :: c5 :: c6 :: c7 :: rest =>
      (fromLeBytes [b0, b1, b2, b3, b4, b5, b6, b7],
       fromLeBytes [c0, c1, c2, c3, c4, c5, c6, c7]) :: decodeDynamic64LE rest
  | _ => []

/-! ## ELF model (`elf` package, `reloc_edit.go`) -/

def SHT_NULL : Nat := 0
def SHT_SYMTAB : Nat := 2
def SHT_RELA : Nat := 4
def SHT_DYNAMIC : Nat := 6
def SHT_NOBITS : Nat := 8
def SHT_REL : Nat := 9
def SHF_ALLOC : Nat := 2
def PT_LOAD : Nat := 1
def ELFCLASS32 : Nat := 1
def ELFCLASS64 : Nat := 2

def DT_PLTRELSZ : Nat := 2
def DT_RELA : Nat := 7
def DT_RELASZ : Nat := 8
def DT_RELAENT : Nat := 9
def DT_REL : Nat := 17
def DT_RELSZ : Nat := 18
def DT_RELENT : Nat := 19
def DT_PLTREL : Nat := 20
def DT_JMPREL : Nat := 23

/-- An ELF section: the `SectionHeader` fields read and written by
`reloc_edit.go`, plus the byte payload.  `payload = none` models a
section whose `sr` reader is nil; `fileSize` mirrors `FileSize`. -/
structure ElfSection where
  name : String
  shname : Nat
  secType : Nat
  flags : Nat
  addr : Nat
  offset : Nat
  size : Nat
  link : Nat
  info : Nat
  addralign : Nat
  entsize : Nat
  fileSize : Nat
  payload : Option (List Nat)
deriving DecidableEq, Inhabited

/-- An ELF program header (`Prog`). -/
structure ElfProg where
  progType : Nat
  off : Nat
  vaddr : Nat
  paddr : Nat
  filesz : Nat
  memsz : Nat
  flags : Nat
  align : Nat
deriving DecidableEq, Inhabited

/-- One `DynTagValue` entry of the ordered `File.DynTags` list. -/
structure DynTagValue where
  tag : Nat
  value : Nat
deriving DecidableEq, Inhabited

/-- The ELF `File` fields touched by the relocation editor.
`symNames`/`dynNames` — Modelled from the spec: `Symbols()` and
`DynamicSymbols()` (`elf/file.go`, not under `src/`) return the parsed
`.symtab`/`.dynsym` entries with the leading NUL symbol skipped; only
the name sequence matters to `symbolIndexByName`, so the two parsed name
sequences are carried on the file. -/
structure ElfFile where
  elfClass : Nat
  littleEndian : Bool
  sections : List ElfSection
  progs : List ElfProg
  dynTags : List DynTagValue
  shStrIndex : Int
  shtOffset : Int
  symNames : List String
  dynNames : List String
deriving DecidableEq, Inhabited

structure Rel32 where
  off : Nat
  info : Nat
deriving DecidableEq, Inhabited

structure Rela32 where
  off : Nat
  info : Nat
  addend : Int
deriving DecidableEq, Inhabited

structure Rel64 where
  off : Nat
  info : Nat
deriving DecidableEq, Inhabited

structure Rela64 where
  off : Nat
  info : Nat
  addend : Int
deriving DecidableEq, Inhabited

/-- The typed relocation arguments accepted by `encodeRelocations`'s
`interface{}` type switch (single entries and slices encode alike). -/
inductive RelEntries where
  | rel32 (rels : List Rel32)
  | rela32 (rels : List Rela32)
  | rel64 (rels : List Rel64)
  | rela64 (rels : List Rela64)
deriving DecidableEq

/-- The distinct error returns of the ELF relocation editor (the Go code
returns `fmt.Errorf`/`errors.New` values; only their identity matters). -/
inductive ElfErr where
  | targetNil
  | targetNotFound
  | noSymbolTable
  | linkMismatch
  | invalidShstrndx
  | noPtLoadForSection
  | noLoadSegments
  | sectionNotFound
  | notRelocSection
  | typeMismatch
  | symbolNotFound
  | offsetOverflow
  | addendOverflow
  | unsupportedClass
deriving DecidableEq

/-- `R_INFO32` (stdlib `debug/elf`): pack a 32-bit relocation info word. -/
def R_INFO32 (sym typ : Nat) : Nat := ((sym <<< 8) ||| typ) % 2 ^ 32

/-- `R_INFO` (stdlib `debug/elf`): pack a 64-bit relocation info word. -/
def R_INFO (sym typ : Nat) : Nat := ((sym <<< 32) ||| typ) % 2 ^ 64

def elfRel32Bytes (le : Bool) (r : Rel32) : List Nat :=
  ordBytes le 4 r.off ++ ordBytes le 4 r.info

def elfRela32Bytes (le : Bool) (r : Rela32) : List Nat :=
  ordBytes le 4 r.off ++ ordBytes le 4 r.info ++ ordBytes le 4 (intBits 4 r.addend)

def elfRel64Bytes (le : Bool) (r : Rel64) : List Nat :=
  ordBytes le 8 r.off ++ ordBytes le 8 r.info

def elfRela64Bytes (le : Bool) (r : Rela64) : List Nat :=
  ordBytes le 8 r.off ++ ordBytes le 8 r.info ++ ordBytes le 8 (intBits 8 r.addend)

/-- `encodeRelocations` (`elf/reloc_edit.go`): serialize the entries in
the file's byte order, returning `(data, section type, entry size)`.
Entry sizes are `binary.Size` of the four record layouts: 8/12/16/24. -/
def encodeRelocations (le : Bool) : RelEntries → List Nat × Nat × Nat
  | .rel32 rs => (rs.flatMap (elfRel32Bytes le), SHT_REL, 8)
  | .rela32 rs => (rs.flatMap (elfRela32Bytes le), SHT_RELA, 12)
  | .rel64 rs => (rs.flatMap (elfRel64Bytes le), SHT_REL, 16)
  | .rela64 rs => (rs.flatMap (elfRela64Bytes le), SHT_RELA, 24)

def relocationSectionName (targetName : String) (relType : Nat) : String :=
  if relType = SHT_RELA then ".rela" ++ targetName else ".rel" ++ targetName

def relocationAlign (elfClass : Nat) : Nat :=
  if elfClass = ELFCLASS64 then 8 else 4

/-- `relocationSection`: the first section of the given type whose
`Info` field names the target index. -/
def relocationSectionIdx (f : ElfFile) (targetIndex relType : Nat) : Option Nat :=
  f.sections.findIdx? (fun s => s.secType == relType && s.info == targetIndex)

def sectionIndexByName (f : ElfFile) (name : String) : Option Nat :=
  f.sections.findIdx? (fun s => s.name == name)

/-- `defaultSymtabIndex`: `.symtab` first, else `.dynsym`, else error. -/
def defaultSymtabIndex (f : ElfFile) : Option Nat :=
  match sectionIndexByName f ".symtab" with
  | some i => some i
  | none => sectionIndexByName f ".dynsym"

/-- `symbolIndexByName`: resolve against `.symtab` first, then `.dynsym`;
the returned symbol index is the list position plus one (Go's `Symbols()`
omits the leading NUL symbol). -/
def symbolIndexByName (f : ElfFile) (name : String) : Option (Nat × Nat) :=
  match
    (match sectionIndexByName f ".symtab" with
     | some si => (f.symNames.findIdx? (fun n => n == name)).map (fun i => (i + 1, si))
     | none => none)
  with
  | some r => some r
  | none =>
      match sectionIndexByName f ".dynsym" with
      | some di => (f.dynNames.findIdx? (fun n => n == name)).map (fun i => (i + 1, di))
      | none => none

/-- Modelled from the spec: `Section.Replace` (`elf/file.go`, not under
`src/`) swaps the payload for the given bytes and records the new length
as the section's file size and size ("edits replace the view with owned
bytes"; scenario 2 expects `DT_RELASZ` to equal the new size). -/
def replaceSection (s : ElfSection) (data : List Nat) : ElfSection :=
  { s with payload := some data, fileSize := data.length, size := data.length }

/-- `Section.Data()` as used here: the current payload bytes (empty when
no reader is attached). -/
def sectionData (s : ElfSection) : List Nat := s.payload.getD []

/-- `bytes.Index`: first position where `pat` occurs as a contiguous
subsequence, if any. -/
def indexOfSeq [BEq α] (pat : List α) : List α → Option Nat
  | [] => if pat.isEmpty then some 0 else none
  | a :: rest =>
      if pat.isPrefixOf (a :: rest) then some 0
      else (indexOfSeq pat rest).map (· + 1)

/-- `strings.Contains`. -/
def strContains (s sub : String) : Bool :=
  (indexOfSeq sub.data s.data).isSome

def strBytes (s : String) : List Nat := s.data.map (fun c => c.toNat)

/-- `ensureSectionName`: intern `sec.name` in the section-header string
table; returns the updated file and section plus whether the string
table grew. -/
def ensureSectionName (f : ElfFile) (sec : ElfSection) :
    Except ElfErr (ElfFile × ElfSection × Bool) :=
  if sec.name = "" then .ok (f, sec, false)
  else if 0 ≤ f.shStrIndex ∧ f.shStrIndex < (f.sections.length : Int) then
    let si := f.shStrIndex.toNat
    let shstr := f.sections.getD si default
    let data := sectionData shstr
    let nameBytes := strBytes sec.name ++ [0]
    match indexOfSeq nameBytes data with
    | some idx => .ok (f, { sec with shname := idx }, false)
    | none =>
        let sec' := { sec with shname := data.length }
        let shstr' := replaceSection shstr (data ++ nameBytes)
        .ok ({ f with sections := f.sections.set si shstr' }, sec', true)
  else .error .invalidShstrndx

def isRelocSec (s : ElfSection) : Bool :=
  s.secType == SHT_REL || s.secType == SHT_RELA

/-- The per-section body of `relayoutRelocationSections`'s placement
loop: skip allocated sections, align the running offset to the section's
alignment (0 treated as 1), place the section there and advance. -/
def relayoutStep (st : List ElfSection × Nat) (i : Nat) : List ElfSection × Nat :=
  let s := st.1.getD i default
  if s.flags &&& SHF_ALLOC ≠ 0 then st
  else
    let align := if s.addralign = 0 then 1 else s.addralign
    let off := alignUp st.2 align
    (st.1.set i { s with offset := off }, off + s.fileSize)

/-- `relayoutRelocationSections`: repack every non-allocated REL/RELA
section (and, when modified, the section-header string table) after the
maximum file end of the non-moving sections, in section-list order, then
re-place the section-header table. -/
def relayoutMovedIdx (f : ElfFile) (shstrModified : Bool) : List Nat :=
  (List.range f.sections.length).filter (fun i => isRelocSec (f.sections.getD i default)) ++
    (if shstrModified ∧ 0 ≤ f.shStrIndex ∧ f.shStrIndex < (f.sections.length : Int) then
      [f.shStrIndex.toNat] else [])

def relayoutRelocationSections (f : ElfFile) (shstrModified : Bool) : ElfFile :=
  let movedIdx := relayoutMovedIdx f shstrModified
  if movedIdx.isEmpty then f
  else
    let moveSet := movedIdx.filter (fun i => (f.sections.getD i default).flags &&& SHF_ALLOC = 0)
    let maxEnd := (List.range f.sections.length).foldl (fun acc i =>
      if moveSet.contains i then acc
      else
        let s := f.sections.getD i default
        if s.secType = SHT_NOBITS ∨ s.fileSize = 0 then acc
        else max acc (s.offset + s.fileSize)) 0
    let st := movedIdx.foldl relayoutStep (f.sections, maxEnd)
    let shtAlign := if f.elfClass = ELFCLASS64 then 8 else 4
    { f with sections := st.1, shtOffset := (alignUp st.2 shtAlign : Nat) }

/-- `maxFileEnd`. -/
def maxFileEnd (f : ElfFile) : Nat :=
  let m : Nat := f.sections.foldl (fun acc s =>
    if s.secType = SHT_NOBITS ∨ s.fileSize = 0 then acc
    else max acc (s.offset + s.fileSize)) 0
  if f.shtOffset > (m : Int) then f.shtOffset.toNat else m

/-- `relayoutAllocRelocationSectionNewLoad`: make room past the last
`PT_LOAD` segment and extend it over the section. -/
def relayoutAllocRelocationSectionNewLoad (f : ElfFile) (si : Nat) :
    Except ElfErr ElfFile :=
  let sec := f.sections.getD si default
  let align := if sec.addralign = 0 then relocationAlign f.elfClass else sec.addralign
  match (List.range f.progs.length).foldl (fun acc i =>
      let p := f.progs.getD i default
      if p.progType ≠ PT_LOAD then acc
      else match acc with
        | none => some i
        | some j => if p.off > (f.progs.getD j default).off then some i else acc) none with
  | none => .error .noLoadSegments
  | some li =>
      let lastLoad := f.progs.getD li default
      let baseOff := lastLoad.off + lastLoad.filesz
      let fileEnd := maxFileEnd f
      let baseOff := if fileEnd > baseOff then fileEnd else baseOff
      let newOff := alignUp baseOff align
      let newAddr := lastLoad.vaddr + (newOff - lastLoad.off)
      let sec' := { sec with offset := newOff, addr := newAddr }
      let endv := newOff + sec'.fileSize
      let lastLoad' :=
        if endv > lastLoad.off + lastLoad.filesz then
          let delta := endv - (lastLoad.off + lastLoad.filesz)
          { lastLoad with filesz := lastLoad.filesz + delta, memsz := lastLoad.memsz + delta }
        else lastLoad
      let f' := { f with sections := f.sections.set si sec', progs := f.progs.set li lastLoad' }
      if ((sec'.offset + sec'.fileSize : Nat) : Int) > f'.shtOffset then
        let shtAlign := if f'.elfClass = ELFCLASS64 then 8 else 4
        .ok { f' with shtOffset := (alignUp (sec'.offset + sec'.fileSize) shtAlign : Nat) }
      else .ok f'

/-- `relayoutAllocRelocationSection`: place an allocated relocation
section at the end of the `PT_LOAD` segment containing its address,
growing the segment, or fall back to the last-load path when the next
segment would be overlapped. -/
def relayoutAllocRelocationSection (f : ElfFile) (si : Nat) : Except ElfErr ElfFile :=
  let sec := f.sections.getD si default
  if sec.flags &&& SHF_ALLOC = 0 then .ok f
  else
    match (List.range f.progs.length).find? (fun i =>
        let p := f.progs.getD i default
        p.progType == PT_LOAD && decide (p.vaddr ≤ sec.addr) &&
          decide (sec.addr < p.vaddr + p.memsz)) with
    | none => .error .noPtLoadForSection
    | some pi =>
        let prog := f.progs.getD pi default
        let nextLoadOff := (List.range f.progs.length).foldl (fun acc i =>
          if i = pi then acc
          else
            let p := f.progs.getD i default
            if p.progType ≠ PT_LOAD then acc
            else if p.off > prog.off ∧ (acc = 0 ∨ p.off < acc) then p.off else acc) 0
        let align := if sec.addralign = 0 then relocationAlign f.elfClass else sec.addralign
        let newOff := alignUp (prog.off + prog.filesz) align
        let newEnd := newOff + sec.fileSize
        if nextLoadOff ≠ 0 ∧ newEnd > nextLoadOff then
          relayoutAllocRelocationSectionNewLoad f si
        else
          let newAddr := prog.vaddr + (newOff - prog.off)
          let sec' := { sec with offset := newOff, addr := newAddr }
          let prog' :=
            if newEnd > prog.off + prog.filesz then
              let delta := newEnd - (prog.off + prog.filesz)
              { prog with filesz := prog.filesz + delta, memsz := prog.memsz + delta }
            else prog
          let f' := { f with sections := f.sections.set si sec', progs := f.progs.set pi prog' }
          if ((sec'.offset + sec'.fileSize : Nat) : Int) > f'.shtOffset then
            let shtAlign := if f'.elfClass = ELFCLASS64 then 8 else 4
            .ok { f' with shtOffset := (alignUp (sec'.offset + sec'.fileSize) shtAlign : Nat) }
          else .ok f'

def lookupDynTag (tags : List DynTagValue) (tag : Nat) : Option Nat :=
  (tags.find? (fun e => e.tag == tag)).map (fun e => e.value)

/-- `setDynTag`: update the first entry with this tag, else append. -/
def setDynTag (tags : List DynTagValue) (tag value : Nat) : List DynTagValue :=
  match tags.findIdx? (fun e => e.tag == tag) with
  | some i => tags.set i { tag := tag, value := value }
  | none => tags ++ [{ tag := tag, value := value }]

/-- The filter in `updateDynamicRelocTags`'s section loop: allocated
REL/RELA sections with a nonzero address. -/
def dynRelocQualifies (s : ElfSection) : Bool :=
  (s.flags &&& SHF_ALLOC ≠ 0 : Bool) && (s.secType == SHT_REL || s.secType == SHT_RELA) &&
    (s.addr ≠ 0 : Bool)

/-- The per-section body of `updateDynamicRelocTags`'s loop. -/
def applyDynRelocTags (tags : List DynTagValue) (s : ElfSection) : List DynTagValue :=
  if dynRelocQualifies s then
    let isPlt := strContains s.name ".plt"
    if s.secType = SHT_RELA then
      if isPlt then
        setDynTag (setDynTag (setDynTag tags DT_JMPREL s.addr) DT_PLTRELSZ s.size) DT_PLTREL DT_RELA
      else
        setDynTag (setDynTag (setDynTag tags DT_RELA s.addr) DT_RELASZ s.size) DT_RELAENT s.entsize
    else
      if isPlt then
        setDynTag (setDynTag (setDynTag tags DT_JMPREL s.addr) DT_PLTRELSZ s.size) DT_PLTREL DT_REL
      else
        setDynTag (setDynTag (setDynTag tags DT_REL s.addr) DT_RELSZ s.size) DT_RELENT s.entsize
  else tags

/-- `updateDynamicRelocTags`: a no-op when `DynTags` is empty, else fold
the tag updates over the section list in order. -/
def updateDynamicRelocTags (f : ElfFile) : ElfFile :=
  if f.dynTags.isEmpty then f
  else { f with dynTags := f.sections.foldl applyDynRelocTags f.dynTags }

/-- The data computed by the validation phase of `addRelocations`
(everything before the first model mutation). -/
structure AddRelocPlan where
  targetIndex : Nat
  data : List Nat
  relType : Nat
  entSize : Nat
  relocIdx : Option Nat
  relocSec : ElfSection
  newSection : Bool
deriving DecidableEq, Inhabited

/-- Validation phase of `addRelocations` (`elf/reloc_edit.go` lines up to
the link-mismatch check): every failure here happens before any model
mutation. -/
def addRelocValidate (f : ElfFile) (target : Option Nat) (rels : RelEntries)
    (linkOverride : Option Nat) : Except ElfErr AddRelocPlan :=
  match target with
  | none => .error .targetNil
  | some ti =>
      if ti < f.sections.length then
        let tsec := f.sections.getD ti default
        let enc := encodeRelocations f.littleEndian rels
        let relType := enc.2.1
        let entSize := enc.2.2
        let found :=
          match relocationSectionIdx f ti relType with
          | some ri => (f.sections.getD ri default, some ri, false)
          | none =>
              ({ name := relocationSectionName tsec.name relType,
                 shname := 0, secType := relType, flags := 0, addr := 0, offset := 0,
                 size := 0, link := 0, info := ti, addralign := relocationAlign f.elfClass,
                 entsize := entSize, fileSize := 0, payload := none }, none, true)
        let relocSec := found.1
        let linkIndex := match linkOverride with | some l => l | none => relocSec.link
        match (if linkIndex = 0 then defaultSymtabIndex f else some linkIndex) with
        | none => .error .noSymbolTable
        | some linkIndex =>
            if relocSec.link ≠ 0 ∧ relocSec.link ≠ linkIndex then .error .linkMismatch
            else
              let relocSec' :=
                { relocSec with
                  link := linkIndex, info := ti,
                  addralign := relocationAlign f.elfClass, entsize := entSize }
              .ok { targetIndex := ti, data := enc.1, relType := relType, entSize := entSize,
                    relocIdx := found.2.1, relocSec := relocSec', newSection := found.2.2 }
      else .error .targetNotFound

def writeBackSection (f : ElfFile) (idx : Option Nat) (sec : ElfSection) : ElfFile :=
  match idx with
  | some i => { f with sections := f.sections.set i sec }
  | none => f

/-- Mutation phase of `addRelocations`: replace the payload, intern the
name, append a fresh section, relayout, and refresh dynamic tags.  The
Go code mutates the file in place, so a failing step after the payload
replacement returns the error together with the already-changed file. -/
def addRelocCommit (f : ElfFile) (plan : AddRelocPlan) (replace : Bool) :
    Option ElfErr × ElfFile :=
  let oldFileSize := plan.relocSec.fileSize
  let data :=
    if replace then plan.data
    else (match plan.relocSec.payload with | some p => p | none => []) ++ plan.data
  let relocSec := replaceSection plan.relocSec data
  let f1 := writeBackSection f plan.relocIdx relocSec
  match ensureSectionName f1 relocSec with
  | .error e => (some e, f1)
  | .ok (f2, relocSec2, modified) =>
      let f3 := writeBackSection f2 plan.relocIdx relocSec2
      let next :=
        if plan.newSection then
          ({ f3 with sections := f3.sections ++ [relocSec2] }, f3.sections.length, true)
        else (f3, plan.relocIdx.getD 0, modified)
      let f5 := relayoutRelocationSections next.1 next.2.2
      if relocSec2.flags &&& SHF_ALLOC ≠ 0 ∧ relocSec2.fileSize ≠ oldFileSize then
        match relayoutAllocRelocationSection f5 next.2.1 with
        | .error e => (some e, f5)
        | .ok f6 => (none, updateDynamicRelocTags f6)
      else (none, updateDynamicRelocTags f5)

/-- `addRelocations` (`elf/reloc_edit.go`): the shared worker behind
`AddRelocation(s)`/`ReplaceRelocations`.  Returns the Go receiver's
post-call state together with the error, mirroring in-place mutation.
`target` is the looked-up index of the `*Section` argument (`none` for a
nil pointer, an out-of-range index for a section not in the list). -/
def addRelocationsSt (f : ElfFile) (target : Option Nat) (rels : RelEntries)
    (replace : Bool) (linkOverride : Option Nat) : Option ElfErr × ElfFile :=
  match addRelocValidate f target rels linkOverride with
  | .error e => (some e, f)
  | .ok plan => addRelocCommit f plan replace

/-- `addRelocationEntry`: build a class-sized REL (no addend) or RELA
(with addend) entry and hand it to `addRelocations`. -/
def addRelocationEntry (f : ElfFile) (target : Option Nat) (symIndex : Nat)
    (symtabIndex : Option Nat) (offset rType : Nat) (addend : Option Int) :
    Option ElfErr × ElfFile :=
  if f.elfClass = ELFCLASS32 then
    if offset > 2 ^ 32 - 1 then (some .offsetOverflow, f)
    else
      match addend with
      | none =>
          addRelocationsSt f target
            (.rel32 [{ off := offset, info := R_INFO32 symIndex rType }]) false symtabIndex
      | some a =>
          if a > ((2 ^ 31 - 1 : Nat) : Int) ∨ a < -((2 ^ 31 : Nat) : Int) then
            (some .addendOverflow, f)
          else
            addRelocationsSt f target
              (.rela32 [{ off := offset, info := R_INFO32 symIndex rType, addend := a }])
              false symtabIndex
  else if f.elfClass = ELFCLASS64 then
    match addend with
    | none =>
        addRelocationsSt f target
          (.rel64 [{ off := offset, info := R_INFO symIndex rType }]) false symtabIndex
    | some a =>
        addRelocationsSt f target
          (.rela64 [{ off := offset, info := R_INFO symIndex rType, addend := a }])
          false symtabIndex
  else (some .unsupportedClass, f)

/-- `AddRelocationForSymbol`: resolve the target section by name and the
symbol by name, then synthesize a REL (nil addend) or RELA entry. -/
def addRelocationForSymbol (f : ElfFile) (sectionName symbolName : String)
    (offset rType : Nat) (addend : Option Int) : Option ElfErr × ElfFile :=
  match sectionIndexByName f sectionName with
  | none => (some .sectionNotFound, f)
  | some ti =>
      match symbolIndexByName f symbolName with
      | none => (some .symbolNotFound, f)
      | some r => addRelocationEntry f (some ti) r.1 (some r.2) offset rType addend

/-- `AddRelocationForAddr`: as `AddRelocationForSymbol` with symbol
index 0 and no symbol-table link override. -/
def addRelocationForAddr (f : ElfFile) (sectionName : String)
    (offset rType : Nat) (addend : Option Int) : Option ElfErr × ElfFile :=
  match sectionIndexByName f sectionName with
  | none => (some .sectionNotFound, f)
  | some ti => addRelocationEntry f (some ti) 0 none offset rType addend

/-- `AddRelocationsToRelocSection`: append entries into a pre-existing
relocation section looked up by name. -/
def addRelocationsToRelocSection (f : ElfFile) (sectionName : String)
    (rels : RelEntries) : Option ElfErr × ElfFile :=
  match sectionIndexByName f sectionName with
  | none => (some .sectionNotFound, f)
  | some ri =>
      let relocSec := f.sections.getD ri default
      if relocSec.secType ≠ SHT_REL ∧ relocSec.secType ≠ SHT_RELA then
        (some .notRelocSection, f)
      else
        let enc := encodeRelocations f.littleEndian rels
        if enc.2.1 ≠ relocSec.secType then (some .typeMismatch, f)
        else
          let existing := match relocSec.payload with | some p => p | none => []
          let relocSec1 :=
            { relocSec with addralign := relocationAlign f.elfClass, entsize := enc.2.2 }
          let relocSec2 := replaceSection relocSec1 (existing ++ enc.1)
          let f1 := { f with sections := f.sections.set ri relocSec2 }
          match ensureSectionName f1 relocSec2 with
          | .error e => (some e, f1)
          | .ok (f2, relocSec3, modified) =>
              let f3 := { f2 with sections := f2.sections.set ri relocSec3 }
              let f4 := relayoutRelocationSections f3 modified
              match relayoutAllocRelocationSection f4 ri with
              | .error e => (some e, f4)
              | .ok f5 => (none, updateDynamicRelocTags f5)

/-- `RemoveRelocationsFromRelocSection`: truncate the named relocation
section's payload and refresh the dynamic tags. -/
def removeRelocationsFromRelocSection (f : ElfFile) (sectionName : String) :
    Option ElfErr × ElfFile :=
  match sectionIndexByName f sectionName with
  | none => (some .sectionNotFound, f)
  | some ri =>
      let s := f.sections.getD ri default
      if s.secType ≠ SHT_REL ∧ s.secType ≠ SHT_RELA then (some .notRelocSection, f)
      else
        let f1 := { f with sections := f.sections.set ri (replaceSection s []) }
        (none, updateDynamicRelocTags f1)

/-- Concrete file for the C2 analysis: `.shstrtab`, an allocated
`.text`, and an allocated `.rela.text` attached to it, with no program
headers at all, so the allocated-section relayout must fail. -/
def exC2Shstr : ElfSection :=
  { name := ".shstrtab", shname := 0, secType := 3, flags := 0, addr := 0, offset := 100,
    size := 11, link := 0, info := 0, addralign := 1, entsize := 0, fileSize := 11,
    payload := some (strBytes ".rela.text" ++ [0]) }

def exC2Text : ElfSection :=
  { name := ".text", shname := 0, secType := 1, flags := 2, addr := 4096, offset := 64,
    size := 16, link := 0, info := 0, addralign := 16, entsize := 0, fileSize := 16,
    payload := some (List.replicate 16 0) }

def exC2Rela : ElfSection :=
  { name := ".rela.text", shname := 0, secType := 4, flags := 2, addr := 8192, offset := 96,
    size := 24, link := 3, info := 1, addralign := 8, entsize := 24, fileSize := 24,
    payload := some (List.replicate 24 0) }

def exC2File : ElfFile :=
  { elfClass := 2, littleEndian := true, sections := [exC2Shstr, exC2Text, exC2Rela],
    progs := [], dynTags := [], shStrIndex := 0, shtOffset := 200,
    symNames := [], dynNames := [] }

/-- The tag family a qualifying section writes in
`updateDynamicRelocTags`: PLT-named sections write the `DT_JMPREL`
family whatever their type; otherwise the type picks the RELA or REL
family. -/
def dynTagFamily (s : ElfSection) : Nat :=
  if strContains s.name ".plt" then 0 else if s.secType = SHT_RELA then 1 else 2

def famTagList : Nat → List Nat
  | 0 => [DT_JMPREL, DT_PLTRELSZ, DT_PLTREL]
  | 1 => [DT_RELA, DT_RELASZ, DT_RELAENT]
  | _ => [DT_REL, DT_RELSZ, DT_RELENT]

/-- The tag that receives `s.addr` for section `s`. -/
def famAddrTag (s : ElfSection) : Nat :=
  if strContains s.name ".plt" then DT_JMPREL
  else if s.secType = SHT_RELA then DT_RELA else DT_REL

/-- The tag that receives `s.size` for section `s`. -/
def famSizeTag (s : ElfSection) : Nat :=
  if strContains s.name ".plt" then DT_PLTRELSZ
  else if s.secType = SHT_RELA then DT_RELASZ else DT_RELSZ

/-- The third tag written for section `s` (`DT_PLTREL` or the entry-size
tag). -/
def famThirdTag (s : ElfSection) : Nat :=
  if strContains s.name ".plt" then DT_PLTREL
  else if s.secType = SHT_RELA then DT_RELAENT else DT_RELENT

/-- The value of the third tag: the REL/RELA kind for PLT sections, the
entry size otherwise. -/
def famThirdVal (s : ElfSection) : Nat :=
  if strContains s.name ".plt" then (if s.secType = SHT_RELA then DT_RELA else DT_REL)
  else s.entsize

/-- Concrete files for the C3 analysis: two allocated non-PLT RELA
sections with distinct nonzero addresses, and a non-empty dynamic tag
list. -/
def exC3SecA : ElfSection :=
  { name := ".rela.one", shname := 0, secType := 4, flags := 2, addr := 256, offset := 64,
    size := 24, link := 0, info := 0, addralign := 8, entsize := 24, fileSize := 24,
    payload := some (List.replicate 24 0) }

def exC3SecB : ElfSection :=
  { name := ".rela.two", shname := 0, secType := 4, flags := 2, addr := 512, offset := 96,
    size := 48, link := 0, info := 0, addralign := 8, entsize := 24, fileSize := 48,
    payload := some (List.replicate 48 0) }

def exC3File : ElfFile :=
  { elfClass := 2, littleEndian := true, sections := [exC3SecA, exC3SecB],
    progs := [], dynTags := [{ tag := 7, value := 0 }], shStrIndex := 0, shtOffset := 200,
    symNames := [], dynNames := [] }

def exC3WFile : ElfFile :=
  { elfClass := 2, littleEndian := true, sections := [exC3SecA],
    progs := [], dynTags := [{ tag := 7, value := 0 }], shStrIndex := 0, shtOffset := 200,
    symNames := [], dynNames := [] }


/-- Concrete file for the C7 analysis: no sections and no symbol tables
at all. -/
def exC7File : ElfFile :=
  { elfClass := 2, littleEndian := true, sections := [], progs := [], dynTags := [],
    shStrIndex := 0, shtOffset := 0, symNames := [], dynNames := [] }

def exC7WShstr : ElfSection :=
  { name := ".shstrtab", shname := 0, secType := 3, flags := 0, addr := 0, offset := 100,
    size := 10, link := 0, info := 0, addralign := 1, entsize := 0, fileSize := 10,
    payload := some (strBytes ".rel.text" ++ [0]) }

def exC7WText : ElfSection :=
  { name := ".text", shname := 0, secType := 1, flags := 0, addr := 0, offset := 64,
    size := 16, link := 0, info := 0, addralign := 16, entsize := 0, fileSize := 16,
    payload := some (List.replicate 16 0) }

def exC7WSymtab : ElfSection :=
  { name := ".symtab", shname := 0, secType := 2, flags := 0, addr := 0, offset := 120,
    size := 24, link := 0, info := 0, addralign := 8, entsize := 24, fileSize := 24,
    payload := some (List.replicate 24 0) }

/-- Concrete file for the C7 witness: `.text` and a `.symtab` holding one
symbol named `f`. -/
def exC7WFile : ElfFile :=
  { elfClass := 2, littleEndian := true,
    sections := [exC7WShstr, exC7WText, exC7WSymtab],
    progs := [], dynTags := [], shStrIndex := 0, shtOffset := 300,
    symNames := ["f"], dynNames := [] }

/-- A section with its file offset and address zeroed: the relayout
passes change only those two fields, so they preserve `secCore`. -/
def secCore (s : ElfSection) : ElfSection :=
  { s with offset := 0, addr := 0 }

/-- Concrete file for the C6 analysis: a target `.text` that already has
a (non-allocated) RELA relocation section attached, plus `.shstrtab` and
`.symtab`. -/
def exC6Shstr : ElfSection :=
  { name := ".shstrtab", shname := 0, secType := 3, flags := 0, addr := 0, offset := 100,
    size := 10, link := 0, info := 0, addralign := 1, entsize := 0, fileSize := 10,
    payload := some (strBytes ".rel.text" ++ [0]) }

def exC6Text : ElfSection :=
  { name := ".text", shname := 0, secType := 1, flags := 2, addr := 4096, offset := 64,
    size := 16, link := 0, info := 0, addralign := 16, entsize := 0, fileSize := 16,
    payload := some (List.replicate 16 0) }

def exC6Rela : ElfSection :=
  { name := ".rela.text", shname := 0, secType := 4, flags := 0, addr := 0, offset := 96,
    size := 24, link := 3, info := 1, addralign := 8, entsize := 24, fileSize := 24,
    payload := some (List.replicate 24 0) }

def exC6Symtab : ElfSection :=
  { name := ".symtab", shname := 0, secType := 2, flags := 0, addr := 0, offset := 120,
    size := 24, link := 0, info := 0, addralign := 8, entsize := 24, fileSize := 24,
    payload := some (List.replicate 24 0) }

def exC6File : ElfFile :=
  { elfClass := 2, littleEndian := true,
    sections := [exC6Shstr, exC6Text, exC6Rela, exC6Symtab],
    progs := [], dynTags := [], shStrIndex := 0, shtOffset := 300,
    symNames := [], dynNames := [] }

/-! ## Mach-O dyld-info model (`macho` package, `part_001`)

The Mach-O `File` structure itself is upstream `debug/macho` material that
is not part of the edited sources; the fields below are Modelled from the
spec: only the fields that `prepareDyldInfoFromRelocs`,
`encodeDyldInfoFromRelocs`, `dyldInfoEndLimit`, `endOfSections` and
`refreshDylinkInfoLoadBytes` read or write are represented.  The functions
themselves are translated from `part_001`. -/

/-- `BindKind` (`macho/reloc_edit.go`): selects the dyld binding stream
used for an extern relocation. -/
inductive BindKind where
  | normal
  | weak
  | lazy
deriving DecidableEq

/-- One Mach-O relocation, restricted to the fields the dyld-info encoder
reads: `Addr`, `Value` and the extern flag. -/
structure MachoReloc where
  addr : Nat
  value : Nat
  isExt : Bool
deriving DecidableEq

/-- One Mach-O section, restricted to the fields read by `endOfSections`
and `encodeDyldInfoFromRelocs`. -/
structure MachoSection where
  name : String
  seg : String
  addr : Nat
  offset : Nat
  size : Nat
  relocs : List MachoReloc
deriving DecidableEq

/-- A load command as seen by `segmentOrdinals`, `segmentAddr` and
`refreshDylinkInfoLoadBytes`: a `*Segment` (name and address), a raw
`LoadBytes` blob, or any other parsed load. -/
inductive MachoLoad where
  | segment (name : String) (addr : Nat)
  | loadBytes (raw : List Nat)
  | otherLoad
deriving DecidableEq

/-- Modelled from the spec: the `DylinkInfo` auxiliary block holding the
four opcode streams, their lengths (uint32) and file offsets (uint64),
plus the export-info placement that `prepareDyldInfoFromRelocs` never
rewrites. -/
structure DylinkInfo where
  rebaseDat : List Nat
  rebaseLen : Nat
  rebaseOffset : Nat
  bindingInfoDat : List Nat
  bindingInfoLen : Nat
  bindingInfoOffset : Nat
  weakBindingDat : List Nat
  weakBindingLen : Nat
  weakBindingOffset : Nat
  lazyBindingDat : List Nat
  lazyBindingLen : Nat
  lazyBindingOffset : Nat
  exportInfoLen : Nat
  exportInfoOffset : Nat
deriving DecidableEq

/-- Offset/length pair of a link-edit data block (`FuncStarts`,
`DataInCode`, `SigBlock`). -/
structure MachoLinkEdit where
  offset : Nat
  len : Nat
deriving DecidableEq

/-- The symbol table as read here: the symbol names in order (`Syms`) and
the `Symoff` header field. -/
structure MachoSymtab where
  syms : List String
  symoff : Nat
deriving DecidableEq

/-- The `Dysymtab` fields read here. -/
structure MachoDysymtab where
  indirectsymoff : Nat
deriving DecidableEq

/-- The Mach-O `File` fields read or written by the dyld-info
preparation path. -/
structure MachoFile where
  littleEndian : Bool
  sections : List MachoSection
  loads : List MachoLoad
  dylinkInfo : Option DylinkInfo
  funcStarts : Option MachoLinkEdit
  dataInCode : Option MachoLinkEdit
  symtab : Option MachoSymtab
  dysymtab : Option MachoDysymtab
  sigBlock : Option MachoLinkEdit
  dylibOrdinalBySymbol : Option (List (Nat × Nat))
  bindKindBySymbol : Option (List (Nat × BindKind))
deriving DecidableEq

/-- Errors raised along the dyld-info path. -/
inductive MachoErr where
  | unknownSegment
  | offsetUnderflow
  | ordinalOutOfRange
  | noSymtab
  | symIndexRange
  | noRoomForDyldInfo
  | shortDylinkCmd
deriving DecidableEq

/-- `alignUp64`. -/
def alignUp64 (value align : Nat) : Nat :=
  if align = 0 then value
  else if value % align = 0 then value
  else value + (align - value % align)

/-- `endOfSections`: the maximum of `Offset + Size` over all sections. -/
def endOfSections (f : MachoFile) : Nat :=
  f.sections.foldl (fun maxEnd s => if s.offset + s.size > maxEnd then s.offset + s.size else maxEnd) 0

/-- The `setLimit` closure of `dyldInfoEndLimit`: ignore zero offsets,
keep the smallest nonzero one seen so far (`0` meaning "none yet"). -/
def setLimit (limit v : Nat) : Nat :=
  if v = 0 then limit
  else if limit = 0 ∨ v < limit then v
  else limit

/-- `dyldInfoEndLimit`: fold `setLimit` over the present candidates, in
source order. -/
def dyldInfoEndLimit (f : MachoFile) : Nat :=
  let l1 := match f.funcStarts with | some x => setLimit 0 x.offset | none => 0
  let l2 := match f.dataInCode with | some x => setLimit l1 x.offset | none => l1
  let l3 := match f.symtab with | some x => setLimit l2 x.symoff | none => l2
  let l4 := match f.dysymtab with | some x => setLimit l3 x.indirectsymoff | none => l3
  let l5 := match f.sigBlock with | some x => setLimit l4 x.offset | none => l4
  match f.dylinkInfo with
  | some d => setLimit (setLimit (setLimit l5 d.lazyBindingOffset) d.weakBindingOffset) d.exportInfoOffset
  | none => l5

/-- The offsets `dyldInfoEndLimit` feeds to `setLimit`, in call order. -/
def dyldLimitCandidates (f : MachoFile) : List Nat :=
  (match f.funcStarts with | some x => [x.offset] | none => []) ++
  (match f.dataInCode with | some x => [x.offset] | none => []) ++
  (match f.symtab with | some x => [x.symoff] | none => []) ++
  (match f.dysymtab with | some x => [x.indirectsymoff] | none => []) ++
  (match f.sigBlock with | some x => [x.offset] | none => []) ++
  (match f.dylinkInfo with
   | some d => [d.lazyBindingOffset, d.weakBindingOffset, d.exportInfoOffset]
   | none => [])

/-- The segment names contributed to `segmentOrdinals`, in load order. -/
def segmentList (loads : List MachoLoad) : List String :=
  loads.filterMap (fun l => match l with | .segment n _ => some n | _ => none)

/-- `segmentOrdinals` lookup: ordinals are assigned in load order and a
repeated name keeps the ordinal of its last occurrence (Go map overwrite). -/
def segOrdinal (loads : List MachoLoad) (name : String) : Option Nat :=
  ((segmentList loads).enum.reverse.find? (fun p => p.2 == name)).map (fun p => p.1)

/-- `segmentAddr`: the address of the first segment load with the given
name, `0` if none. -/
def segmentAddr (loads : List MachoLoad) (name : String) : Nat :=
  match loads.find? (fun l => match l with | .segment n _ => n == name | _ => false) with
  | some (.segment _ a) => a
  | _ => 0

/-- `dylibOrdinalForSymbol`: `0` when no map is set, the recorded ordinal
otherwise (missing key reads as `0`), rejecting ordinals above 15. -/
def dylibOrdinalForSymbol (f : MachoFile) (index : Nat) : Except MachoErr Nat :=
  match f.dylibOrdinalBySymbol with
  | none => .ok 0
  | some m =>
      let o := ((m.reverse.find? (fun p => p.1 == index)).map (fun p => p.2)).getD 0
      if o > 15 then .error .ordinalOutOfRange else .ok o

/-- `bindKindForSymbol`: `BindNormal` when no map is set or the key is
missing. -/
def bindKindForSymbol (f : MachoFile) (index : Nat) : BindKind :=
  match f.bindKindBySymbol with
  | none => .normal
  | some m => ((m.reverse.find? (fun p => p.1 == index)).map (fun p => p.2)).getD .normal

/-- `symbolName`: the indexed symbol's name out of `Symtab.Syms`. -/
def symbolName (f : MachoFile) (index : Nat) : Except MachoErr String :=
  match f.symtab with
  | none => .error .noSymtab
  | some st =>
      if index ≥ st.syms.length then .error .symIndexRange
      else .ok (st.syms.getD index "")

/-- The four opcode buffers and the three current dylib-ordinal registers
threaded through `encodeDyldInfoFromRelocs`. -/
structure DyldEncSt where
  rebase : List Nat
  bind : List Nat
  weak : List Nat
  lazy : List Nat
  curOrd : Nat
  weakOrd : Nat
  lazyOrd : Nat
deriving DecidableEq

/-- The buffers as initialised before the section walk: rebase holds
`SET_TYPE_IMM | pointer` (0x11), each bind-type stream holds
`SET_TYPE_IMM | pointer` (0x51) followed by `SET_DYLIB_ORDINAL_IMM | 0`
(0x10). -/
def dyldInitSt : DyldEncSt :=
  { rebase := [0x11], bind := [0x51, 0x10], weak := [0x51, 0x10], lazy := [0x51, 0x10],
    curOrd := 0, weakOrd := 0, lazyOrd := 0 }

/-- The bytes one extern relocation appends to its bind-type stream: a
`SET_DYLIB_ORDINAL_IMM` byte when the ordinal register changes, then
`SET_SEGMENT_AND_OFFSET_ULEB | seg`, the ULEB offset,
`SET_SYMBOL_TRAILING_FLAGS | 0`, the NUL-terminated name, and `DO_BIND`. -/
def bindEntryBytes (seg segOffset ord cur : Nat) (name : String) : List Nat :=
  (if ord ≠ cur then [0x10 ||| ord] else []) ++
  [0x70 ||| seg] ++ encodeULEB128 segOffset ++ [0x40] ++ strBytes name ++ [0, 0x90]

/-- One relocation's contribution in `encodeDyldInfoFromRelocs`: rebase
opcodes for a non-extern entry, bind opcodes on the stream selected by
the symbol's bind kind otherwise. -/
def dyldRelocStep (f : MachoFile) (s : MachoSection) (seg : Nat) (st : DyldEncSt)
    (rel : MachoReloc) : Except MachoErr DyldEncSt :=
  let offset := s.addr + rel.addr
  let segBase := segmentAddr f.loads s.seg
  if offset < segBase then .error .offsetUnderflow
  else
    let segOffset := offset - segBase
    if rel.isExt then
      match dylibOrdinalForSymbol f rel.value with
      | .error e => .error e
      | .ok ord =>
          match symbolName f rel.value with
          | .error e => .error e
          | .ok name =>
              match bindKindForSymbol f rel.value with
              | .normal =>
                  .ok { st with bind := st.bind ++ bindEntryBytes seg segOffset ord st.curOrd name,
                                curOrd := ord }
              | .weak =>
                  .ok { st with weak := st.weak ++ bindEntryBytes seg segOffset ord st.weakOrd name,
                                weakOrd := ord }
              | .lazy =>
                  .ok { st with lazy := st.lazy ++ bindEntryBytes seg segOffset ord st.lazyOrd name,
                                lazyOrd := ord }
    else
      .ok { st with rebase := st.rebase ++ [0x20 ||| seg] ++ encodeULEB128 segOffset ++ [0x51] }

/-- Fold `dyldRelocStep` over one section's relocations. -/
def dyldRelocFold (f : MachoFile) (s : MachoSection) (seg : Nat) :
    List MachoReloc → DyldEncSt → Except MachoErr DyldEncSt
  | [], st => .ok st
  | rel :: rest, st =>
      match dyldRelocStep f s seg st rel with
      | .error e => .error e
      | .ok st' => dyldRelocFold f s seg rest st'

/-- The section walk of `encodeDyldInfoFromRelocs`: sections without
relocations are skipped, a section whose segment is not in the ordinal
map aborts, otherwise its relocations are encoded with
`seg = ordinal & 0x0f`. -/
def dyldSectionFold (f : MachoFile) :
    List MachoSection → DyldEncSt → Except MachoErr DyldEncSt
  | [], st => .ok st
  | s :: rest, st =>
      if s.relocs.isEmpty then dyldSectionFold f rest st
      else
        match segOrdinal f.loads s.seg with
        | none => .error .unknownSegment
        | some o =>
            match dyldRelocFold f s (o &&& 0xf) s.relocs st with
            | .error e => .error e
            | .ok st' => dyldSectionFold f rest st'

/-- `encodeDyldInfoFromRelocs`: nothing when there are no segments; else
the streams after the section walk, with DONE (0x00) appended to rebase
unconditionally and to each bind-type stream when it is longer than one
byte. -/
def encodeDyldInfoFromRelocs (f : MachoFile) :
    Except MachoErr (List Nat × List Nat × List Nat × List Nat) :=
  if (segmentList f.loads).isEmpty then .ok ([], [], [], [])
  else
    match dyldSectionFold f f.sections dyldInitSt with
    | .error e => .error e
    | .ok st =>
        .ok (st.rebase ++ [0],
             if st.bind.length > 1 then st.bind ++ [0] else st.bind,
             if st.weak.length > 1 then st.weak ++ [0] else st.weak,
             if st.lazy.length > 1 then st.lazy ++ [0] else st.lazy)

/-- Modelled from the spec: `LC_DYLD_INFO`, the load-command tag that
`refreshDylinkInfoLoadBytes` matches. -/
def LoadCmdDylinkInfo : Nat := 0x22

/-- Read the u32 at byte offset `k` of a raw load command in the file's
byte order. -/
def readU32At (le : Bool) (bs : List Nat) (k : Nat) : Nat :=
  if le then fromLeBytes ((bs.drop k).take 4)
  else fromLeBytes ((bs.drop k).take 4).reverse

/-- Modelled from the spec: the `DylinkInfoCmd` header is twelve u32
fields — cmd, cmdsize, then off/size pairs for rebase, binding-info,
weak-binding, lazy-binding and export-info.  `refreshDylinkInfoLoadBytes`
re-emits it with each pair overridden when the corresponding stream
length is nonzero. -/
def rebuildDylinkCmdBytes (le : Bool) (d : DylinkInfo) (raw : List Nat) : List Nat :=
  let fld := fun k => readU32At le raw k
  let rebaseoff := if d.rebaseLen > 0 then d.rebaseOffset % 2 ^ 32 else fld 8
  let rebasesize := if d.rebaseLen > 0 then d.rebaseLen else fld 12
  let bindoff := if d.bindingInfoLen > 0 then d.bindingInfoOffset % 2 ^ 32 else fld 16
  let bindsize := if d.bindingInfoLen > 0 then d.bindingInfoLen else fld 20
  let weakoff := if d.weakBindingLen > 0 then d.weakBindingOffset % 2 ^ 32 else fld 24
  let weaksize := if d.weakBindingLen > 0 then d.weakBindingLen else fld 28
  let lazyoff := if d.lazyBindingLen > 0 then d.lazyBindingOffset % 2 ^ 32 else fld 32
  let lazysize := if d.lazyBindingLen > 0 then d.lazyBindingLen else fld 36
  let exoff := if d.exportInfoLen > 0 then d.exportInfoOffset % 2 ^ 32 else fld 40
  let exsize := if d.exportInfoLen > 0 then d.exportInfoLen else fld 44
  ordBytes le 4 (fld 0) ++ ordBytes le 4 (fld 4) ++
  ordBytes le 4 rebaseoff ++ ordBytes le 4 rebasesize ++
  ordBytes le 4 bindoff ++ ordBytes le 4 bindsize ++
  ordBytes le 4 weakoff ++ ordBytes le 4 weaksize ++
  ordBytes le 4 lazyoff ++ ordBytes le 4 lazysize ++
  ordBytes le 4 exoff ++ ordBytes le 4 exsize

/-- The load walk of `refreshDylinkInfoLoadBytes`: the first `LoadBytes`
of at least 8 bytes whose command tag is `LC_DYLD_INFO` is re-emitted
(parsing its 48-byte header fails when the blob is shorter), and the walk
stops there. -/
def refreshDylinkLoads (le : Bool) (d : DylinkInfo) :
    List MachoLoad → Except MachoErr (List MachoLoad)
  | [] => .ok []
  | .loadBytes raw :: rest =>
      if raw.length < 8 then (refreshDylinkLoads le d rest).map (MachoLoad.loadBytes raw :: ·)
      else if readU32At le raw 0 ≠ LoadCmdDylinkInfo then
        (refreshDylinkLoads le d rest).map (MachoLoad.loadBytes raw :: ·)
      else if raw.length < 48 then .error .shortDylinkCmd
      else .ok (.loadBytes (rebuildDylinkCmdBytes le d raw) :: rest)
  | l :: rest => (refreshDylinkLoads le d rest).map (l :: ·)

/-- Whether the load walk of `refreshDylinkInfoLoadBytes` would hit a
matching load command too short for its 48-byte header. -/
def hasShortDylinkCmd (le : Bool) : List MachoLoad → Bool
  | [] => false
  | .loadBytes raw :: rest =>
      if raw.length < 8 then hasShortDylinkCmd le rest
      else if readU32At le raw 0 ≠ LoadCmdDylinkInfo then hasShortDylinkCmd le rest
      else decide (raw.length < 48)
  | _ :: rest => hasShortDylinkCmd le rest

/-- `refreshDylinkInfoLoadBytes`. -/
def refreshDylinkInfoLoadBytes (f : MachoFile) : Except MachoErr MachoFile :=
  match f.dylinkInfo with
  | none => .ok f
  | some d =>
      match refreshDylinkLoads f.littleEndian d f.loads with
      | .error e => .error e
      | .ok loads1 => .ok { f with loads := loads1 }

/-- The placement commit of `prepareDyldInfoFromRelocs`: store each
stream, its length (uint32) and its offset, walking `offset` forward from
`start` through rebase, bind, weak-bind and lazy-bind in that order. -/
def dyldCommitInfo (d : DylinkInfo) (start : Nat)
    (rebaseDat bindDat weakDat lazyDat : List Nat) : DylinkInfo :=
  { d with
    rebaseDat := rebaseDat,
    rebaseLen := rebaseDat.length % 2 ^ 32,
    rebaseOffset := start,
    bindingInfoDat := bindDat,
    bindingInfoLen := bindDat.length % 2 ^ 32,
    bindingInfoOffset := start + rebaseDat.length,
    weakBindingDat := weakDat,
    weakBindingLen := weakDat.length % 2 ^ 32,
    weakBindingOffset := start + rebaseDat.length + bindDat.length,
    lazyBindingDat := lazyDat,
    lazyBindingLen := lazyDat.length % 2 ^ 32,
    lazyBindingOffset := start + rebaseDat.length + bindDat.length + weakDat.length }

/-- The file after the placement commit, before the load-command
refresh. -/
def dyldCommitFile (f : MachoFile) (d : DylinkInfo) (start : Nat)
    (rebaseDat bindDat weakDat lazyDat : List Nat) : MachoFile :=
  { f with dylinkInfo := some (dyldCommitInfo d start rebaseDat bindDat weakDat lazyDat) }

/-- `prepareDyldInfoFromRelocs`: encode the four streams, bail out when
there is no dylink info or every stream is empty, fail with
`NoRoomForDyldInfo` when `align(endOfSections, 4)` plus the total length
passes the end limit, otherwise commit the contiguous placement
rebase/bind/weak/lazy and refresh the raw load command. -/
def prepareDyldInfoFromRelocs (f : MachoFile) : Option MachoErr × MachoFile :=
  match f.dylinkInfo with
  | none => (none, f)
  | some d =>
      match encodeDyldInfoFromRelocs f with
      | .error e => (some e, f)
      | .ok (rebaseDat, bindDat, weakDat, lazyDat) =>
          if rebaseDat.isEmpty ∧ bindDat.isEmpty ∧ weakDat.isEmpty ∧ lazyDat.isEmpty then
            (none, f)
          else
            let start := alignUp64 (endOfSections f) 4
            let limit := dyldInfoEndLimit f
            let total := rebaseDat.length + bindDat.length + weakDat.length + lazyDat.length
            if limit ≠ 0 ∧ start + total > limit then (some .noRoomForDyldInfo, f)
            else
              let f1 := dyldCommitFile f d start rebaseDat bindDat weakDat lazyDat
              match refreshDylinkInfoLoadBytes f1 with
              | .error e => (some e, f1)
              | .ok f2 => (none, f2)

/-- Concrete file for the C4 witness: one `__TEXT` segment, no sections,
no link-edit blocks (so no end limit), and an all-zero dylink-info
block. -/
def exC4Dylink : DylinkInfo :=
  { rebaseDat := [], rebaseLen := 0, rebaseOffset := 0,
    bindingInfoDat := [], bindingInfoLen := 0, bindingInfoOffset := 0,
    weakBindingDat := [], weakBindingLen := 0, weakBindingOffset := 0,
    lazyBindingDat := [], lazyBindingLen := 0, lazyBindingOffset := 0,
    exportInfoLen := 0, exportInfoOffset := 0 }

def exC4File : MachoFile :=
  { littleEndian := true, sections := [], loads := [.segment "__TEXT" 4096],
    dylinkInfo := some exC4Dylink, funcStarts := none, dataInCode := none,
    symtab := none, dysymtab := none, sigBlock := none,
    dylibOrdinalBySymbol := none, bindKindBySymbol := none }

/-- Concrete file for the C5 analysis: one segment and no relocations at
all, so every bind-type stream is exactly its two-byte prologue before
the DONE step. -/
def exC5File : MachoFile :=
  { littleEndian := true, sections := [], loads := [.segment "__DATA" 8192],
    dylinkInfo := none, funcStarts := none, dataInCode := none,
    symtab := none, dysymtab := none, sigBlock := none,
    dylibOrdinalBySymbol := none, bindKindBySymbol := none }

/-! ## PE relocation layout model (`pe` package, `part_005`)

`prepareRelocationLayout`, `maxSectionEnds`, `buildBaseRelocationData`,
`buildCOFFRelocationData`, `headersSize` and `align32` are translated
from `part_005`.  The PE `File`/`Section`/header structures themselves
are upstream `debug/pe` material not under the edited sources; the
fields below are Modelled from the spec, keeping exactly what these
functions read or write. -/

/-- One entry of a base-relocation block: the relocation type and the
12-bit page offset. -/
structure BlockItem where
  itemType : Nat
  offset : Nat
deriving DecidableEq

/-- One base-relocation block: a page virtual address and its items. -/
structure BaseRelocBlock where
  virtualAddress : Nat
  blockItems : List BlockItem
deriving DecidableEq

def IMAGE_REL_BASED_ABSOLUTE : Nat := 0

def IMAGE_DIRECTORY_ENTRY_BASERELOC : Nat := 5

def IMAGE_FILE_RELOCS_STRIPPED : Nat := 1

/-- `align32`. -/
def align32 (value align : Nat) : Nat :=
  if align = 0 then value
  else if value % align = 0 then value
  else value + (align - value % align)

/-- The bytes one block contributes in `buildBaseRelocationData`: the
8-byte `RelocationBlock` header (`VirtualAddress`, `SizeOfBlock`, both
little-endian u32) followed by one u16 per item, with one
`IMAGE_REL_BASED_ABSOLUTE` item appended first when the item count is
odd. -/
def baseRelocEntryBytes (entry : BaseRelocBlock) : List Nat :=
  let items := if entry.blockItems.length % 2 ≠ 0
               then entry.blockItems ++ [{ itemType := IMAGE_REL_BASED_ABSOLUTE, offset := 0 }]
               else entry.blockItems
  let sizeOfBlock := (8 + items.length * 2) % 2 ^ 32
  leBytes 4 (entry.virtualAddress % 2 ^ 32) ++ leBytes 4 sizeOfBlock ++
  items.flatMap
    (fun item => leBytes 2 (((item.itemType <<< 12) ||| (item.offset &&& 0xfff)) % 2 ^ 16))

/-- `buildBaseRelocationData`: nothing when no table is attached, else
the blocks' bytes accumulated into one buffer in table order. -/
def buildBaseRelocationData (table : Option (List BaseRelocBlock)) : List Nat :=
  match table with
  | none => []
  | some entries => entries.foldl (fun buf entry => buf ++ baseRelocEntryBytes entry) []

/-- Following the spec's words (for comparison with the source
translation): a block's items padded with one `IMAGE_REL_BASED_ABSOLUTE`
entry if their count is odd. -/
def paddedItems (entry : BaseRelocBlock) : List BlockItem :=
  if entry.blockItems.length % 2 = 1
  then entry.blockItems ++ [{ itemType := IMAGE_REL_BASED_ABSOLUTE, offset := 0 }]
  else entry.blockItems

/-- Following the spec's words: each block is
`\x7bu32 page_va; u32 size_of_block; (u16 packed)*\x7d`, each packed
entry is `(type<<12) | (offset & 0x0fff)`, and `size_of_block` is 8 plus
2 times the padded entry count. -/
def baseRelocBlockBytesSpec (entry : BaseRelocBlock) : List Nat :=
  leBytes 4 (entry.virtualAddress % 2 ^ 32) ++
  leBytes 4 ((8 + 2 * (paddedItems entry).length) % 2 ^ 32) ++
  (paddedItems entry).flatMap
    (fun item => leBytes 2 (((item.itemType <<< 12) ||| (item.offset &&& 0xfff)) % 2 ^ 16))

/-- Following the spec's words: the serialized data is the concatenation
of the blocks' bytes in table order. -/
def baseRelocDataSpec (entries : List BaseRelocBlock) : List Nat :=
  entries.flatMap baseRelocBlockBytesSpec

/-- One COFF relocation as laid out by `binary.Write`: u32 virtual
address, u32 symbol-table index, u16 type — 10 bytes. -/
structure PEReloc where
  virtualAddress : Nat
  symbolTableIndex : Nat
  relType : Nat
deriving DecidableEq

def coffRelocBytes (rel : PEReloc) : List Nat :=
  leBytes 4 (rel.virtualAddress % 2 ^ 32) ++ leBytes 4 (rel.symbolTableIndex % 2 ^ 32) ++
  leBytes 2 (rel.relType % 2 ^ 16)

/-- One PE section, restricted to the fields the layout code touches. -/
structure PESection where
  name : String
  offset : Nat
  size : Nat
  virtualSize : Nat
  virtualAddress : Nat
  pointerToRelocations : Nat
  numberOfRelocations : Nat
  characteristics : Nat
  relocs : List PEReloc
  payload : List Nat
deriving DecidableEq, Inhabited

/-- One `DataDirectory` entry. -/
structure PEDataDir where
  virtualAddress : Nat
  size : Nat
deriving DecidableEq, Inhabited

/-- The optional-header fields `optionalHeaderInfo` hands out (the
32- and 64-bit cases expose the same five). -/
structure PEOptHeader where
  sectionAlignment : Nat
  fileAlignment : Nat
  dataDirectory : List PEDataDir
  sizeOfImage : Nat
  sizeOfHeaders : Nat
deriving DecidableEq, Inhabited

/-- The PE `File` fields the relocation layout reads or writes. -/
structure PEFile where
  dosNewExeOffset : Nat
  characteristics : Nat
  numberOfSections : Nat
  sizeOfOptionalHeader : Nat
  pointerToSymbolTable : Nat
  coffSymbolsCount : Nat
  optionalHeader : Option PEOptHeader
  sections : List PESection
  baseRelocationTable : Option (List BaseRelocBlock)
deriving DecidableEq

inductive PEErr where
  | noOptionalHeader
  | tooManyCOFFRelocs
deriving DecidableEq

/-- `maxSectionEnds`: the maximal raw end and the maximal aligned
virtual end over all sections, skipping the `.reloc` section itself
(identified by its list index, matching Go's pointer comparison against
`f.Section(".reloc")`). -/
def maxSectionEnds (sections : List PESection) (skipIdx : Option Nat)
    (sectionAlign : Nat) : Nat × Nat :=
  sections.enum.foldl
    (fun acc p =>
      if some p.1 = skipIdx then acc
      else
        let s := p.2
        let rawEnd := s.offset + s.size
        let acc1 := if rawEnd > acc.1 then (rawEnd, acc.2) else acc
        let virtualSize := if s.virtualSize = 0 then s.size else s.virtualSize
        let virtualEnd := s.virtualAddress + align32 virtualSize sectionAlign
        if virtualEnd > acc1.2 then (acc1.1, virtualEnd) else acc1)
    (0, 0)

/-- The fresh `.reloc` section created when none exists: initialized
data, readable, discardable. -/
def peNewRelocSection : PESection :=
  { name := ".reloc", offset := 0, size := 0, virtualSize := 0, virtualAddress := 0,
    pointerToRelocations := 0, numberOfRelocations := 0,
    characteristics := 0x40 ||| 0x40000000 ||| 0x2000000, relocs := [], payload := [] }

/-- The in-place update of the `.reloc` section: unpadded length as
`VirtualSize`, file-aligned length as `Size`, placement after the other
sections' raw and virtual ends, and the padded data as payload. -/
def applyRelocSectionUpdate (s : PESection) (relocData : List Nat)
    (fileAlign sectionAlign maxRawEnd maxVirtualEnd : Nat) : PESection :=
  { s with
    virtualSize := relocData.length % 2 ^ 32,
    size := align32 (relocData.length % 2 ^ 32) fileAlign,
    pointerToRelocations := 0,
    numberOfRelocations := 0,
    offset := align32 maxRawEnd fileAlign,
    virtualAddress := align32 maxVirtualEnd sectionAlign,
    payload := relocData.take (align32 (relocData.length % 2 ^ 32) fileAlign) ++
      List.replicate (align32 (relocData.length % 2 ^ 32) fileAlign - relocData.length) 0 }

/-- The file state after the base-relocation half of
`prepareRelocationLayout`. -/
structure PELayoutSt where
  sections : List PESection
  numberOfSections : Nat
  maxRawEnd : Nat
  maxVirtualEnd : Nat
  dataDirectory : List PEDataDir
  characteristics : Nat

/-- The base-relocation half of `prepareRelocationLayout`: when data
exists, place (and if needed create) the `.reloc` section, point the
BASERELOC directory at it with the unpadded length, and clear
`IMAGE_FILE_RELOCS_STRIPPED`; otherwise zero the directory. -/
def peApplyBaseReloc (f : PEFile) (oh : PEOptHeader) : PELayoutSt :=
  let relocData := buildBaseRelocationData f.baseRelocationTable
  let relocIdx0 := f.sections.findIdx? (fun s => s.name == ".reloc")
  let me := maxSectionEnds f.sections relocIdx0 oh.sectionAlignment
  if relocData.length > 0 then
    let sections0 := match relocIdx0 with
      | some _ => f.sections
      | none => f.sections ++ [peNewRelocSection]
    let idx := match relocIdx0 with
      | some i => i
      | none => f.sections.length
    let nos := match relocIdx0 with
      | some _ => f.numberOfSections
      | none => sections0.length % 2 ^ 16
    let s1 := applyRelocSectionUpdate (sections0.getD idx default) relocData
                oh.fileAlignment oh.sectionAlignment me.1 me.2
    { sections := sections0.set idx s1,
      numberOfSections := nos,
      maxRawEnd := s1.offset + s1.size,
      maxVirtualEnd := s1.virtualAddress + align32 s1.virtualSize oh.sectionAlignment,
      dataDirectory := oh.dataDirectory.set IMAGE_DIRECTORY_ENTRY_BASERELOC
        { virtualAddress := s1.virtualAddress, size := relocData.length % 2 ^ 32 },
      characteristics := f.characteristics &&& 0xfffe }
  else
    { sections := f.sections,
      numberOfSections := f.numberOfSections,
      maxRawEnd := me.1,
      maxVirtualEnd := me.2,
      dataDirectory := oh.dataDirectory.set IMAGE_DIRECTORY_ENTRY_BASERELOC
        { virtualAddress := 0, size := 0 },
      characteristics := f.characteristics }

/-- `headersSize`: DOS stub, PE signature, 20-byte file header, optional
header, and 40 bytes per section header. -/
def headersSize (f : PEFile) (nsections : Nat) : Nat :=
  f.dosNewExeOffset + 4 + 20 + f.sizeOfOptionalHeader + nsections * 40

/-- The section walk of `buildCOFFRelocationData`: sections without
relocations get zeroed relocation pointers; others are rejected above
65535 entries, pointed at the 4-aligned running offset, and their
entries appended after zero padding up to that offset. -/
def coffWalk (start : Nat) :
    List PESection → Nat → List Nat → Except PEErr (List Nat × Nat × List PESection)
  | [], offset, buf => .ok (buf, offset, [])
  | s :: rest, offset, buf =>
      if s.relocs.isEmpty then
        match coffWalk start rest offset buf with
        | .error e => .error e
        | .ok (buf1, off1, rest1) =>
            .ok (buf1, off1,
                 { s with pointerToRelocations := 0, numberOfRelocations := 0 } :: rest1)
      else if s.relocs.length > 65535 then .error .tooManyCOFFRelocs
      else
        let offset1 := align32 offset 4
        let s1 := { s with pointerToRelocations := offset1,
                           numberOfRelocations := s.relocs.length }
        let pad := offset1 - start - buf.length
        let buf1 := buf ++ List.replicate pad 0 ++ s.relocs.flatMap coffRelocBytes
        match coffWalk start rest (offset1 + s.relocs.length * 10) buf1 with
        | .error e => .error e
        | .ok (buf2, off2, rest2) => .ok (buf2, off2, s1 :: rest2)

/-- `buildCOFFRelocationData`. -/
def buildCOFFRelocationData (start0 fileAlign : Nat) (sections : List PESection) :
    Except PEErr (List Nat × Nat × List PESection) :=
  let start := if start0 = 0 then fileAlign else start0
  match coffWalk start sections (align32 start fileAlign) [] with
  | .error e => .error e
  | .ok (buf, _, sections1) => .ok (buf, start, sections1)

/-- `prepareRelocationLayout`: returns the COFF relocation bytes and
their start offset alongside the updated file. -/
def prepareRelocationLayout (f : PEFile) : Except PEErr ((List Nat × Nat) × PEFile) :=
  match f.optionalHeader with
  | none => .error .noOptionalHeader
  | some oh =>
      let st := peApplyBaseReloc f oh
      let sizeOfImage := align32 st.maxVirtualEnd oh.sectionAlignment
      let sizeOfHeaders := align32 (headersSize f st.sections.length) oh.fileAlignment
      match buildCOFFRelocationData st.maxRawEnd oh.fileAlignment st.sections with
      | .error e => .error e
      | .ok (coffData, coffStart, sections2) =>
          let pst := if f.coffSymbolsCount > 0
                     then align32 (coffStart + coffData.length) 4 else 0
          .ok ((coffData, coffStart),
               { f with
                 sections := sections2,
                 numberOfSections := st.numberOfSections,
                 characteristics := st.characteristics,
                 pointerToSymbolTable := pst,
                 optionalHeader := some { oh with
                   dataDirectory := st.dataDirectory,
                   sizeOfImage := sizeOfImage,
                   sizeOfHeaders := sizeOfHeaders } })

/-- Concrete block for the C8 witness: one item, hence padded. -/
def exC8Block : BaseRelocBlock :=
  { virtualAddress := 0x1000, blockItems := [{ itemType := 3, offset := 0x10 }] }

/-- Concrete block and file for the C9 witness. -/
def exC9Block : BaseRelocBlock :=
  { virtualAddress := 4096, blockItems := [{ itemType := 3, offset := 8 }] }

def exC9Oh : PEOptHeader :=
  { sectionAlignment := 16, fileAlignment := 16,
    dataDirectory := List.replicate 16 { virtualAddress := 0, size := 0 },
    sizeOfImage := 0, sizeOfHeaders := 0 }

def exC9Text : PESection :=
  { name := ".text", offset := 64, size := 16, virtualSize := 16, virtualAddress := 4096,
    pointerToRelocations := 0, numberOfRelocations := 0, characteristics := 0x60000020,
    relocs := [], payload := List.replicate 16 0 }

def exC9File : PEFile :=
  { dosNewExeOffset := 128, characteristics := 0x0103, numberOfSections := 1,
    sizeOfOptionalHeader := 224, pointerToSymbolTable := 0, coffSymbolsCount := 0,
    optionalHeader := some exC9Oh, sections := [exC9Text],
    baseRelocationTable := some [exC9Block] }

theorem leBytes8_eq (t : Nat) :
    leBytes 8 t =
      [t % 256, t / 256 % 256, t / 256 / 256 % 256, t / 256 / 256 / 256 % 256,
       t / 256 / 256 / 256 / 256 % 256, t / 256 / 256 / 256 / 256 / 256 % 256,
       t / 256 / 256 / 256 / 256 / 256 / 256 % 256,
       t / 256 / 256 / 256 / 256 / 256 / 256 / 256 % 256] := rfl

theorem fromLeBytes_leBytes (k v : Nat) : fromLeBytes (leBytes k v) = v % 256 ^ k := by
  induction k generalizing v with
  | zero => simp [leBytes, fromLeBytes, Nat.mod_one]
  | succ k ih =>
      simp only [leBytes, fromLeBytes, ih]
      have h1 : v % 256 % 256 = v % 256 := by omega
      rw [h1, pow_succ', Nat.mod_mul]

theorem leBytes_length (k v : Nat) : (leBytes k v).length = k := by
  induction k generalizing v with
  | zero => simp [leBytes]
  | succ k ih => simp [leBytes, ih]

theorem leBytes_succ_cons (k v : Nat) :
    leBytes (k + 1) v = (v % 256) :: leBytes k (v / 256) := rfl

theorem ulebLoop_ne_nil (fuel v : Nat) : ulebLoop fuel v ≠ [] := by
  cases fuel with
  | zero => simp [ulebLoop]
  | succ fuel =>
      rw [ulebLoop]
      split <;> simp

theorem decodeULEB128_ulebLoop (fuel v : Nat) (h : v ≤ fuel) :
    decodeULEB128 (ulebLoop fuel v) = v := by
  induction fuel generalizing v with
  | zero =>
      have : v = 0 := by omega
      simp [ulebLoop, decodeULEB128, this]
  | succ fuel ih =>
      rw [ulebLoop]
      split
      · rename_i hz
        simp only [decodeULEB128]
        omega
      · rename_i hz
        have hlt : v / 128 < v := Nat.div_lt_self (by omega) (by omega)
        simp only [decodeULEB128, ih (v / 128) (by omega)]
        omega

theorem decodeULEB128_encodeULEB128 (n : Nat) :
    decodeULEB128 (encodeULEB128 n) = n :=
  decodeULEB128_ulebLoop n n (le_refl n)

theorem encodeULEB128_zero : encodeULEB128 0 = [0] := rfl

theorem ulebLoop_last_lt (fuel v : Nat) (h : v ≤ fuel) :
    ∀ b, (ulebLoop fuel v).getLast? = some b → b < 128 := by
  induction fuel generalizing v with
  | zero =>
      intro b hb
      simp [ulebLoop] at hb
      omega
  | succ fuel ih =>
      intro b hb
      rw [ulebLoop] at hb
      split at hb
      · simp at hb
        omega
      · rename_i hz
        have hlt : v / 128 < v := Nat.div_lt_self (by omega) (by omega)
        cases hul : ulebLoop fuel (v / 128) with
        | nil => exact absurd hul (ulebLoop_ne_nil _ _)
        | cons x xs =>
            rw [hul, List.getLast?_cons_cons] at hb
            exact ih (v / 128) (by omega) b (by rw [hul]; exact hb)

theorem ulebLoop_dropLast_ge (fuel v : Nat) (h : v ≤ fuel) :
    ∀ b ∈ (ulebLoop fuel v).dropLast, 128 ≤ b := by
  induction fuel generalizing v with
  | zero =>
      intro b hb
      simp [ulebLoop] at hb
  | succ fuel ih =>
      intro b hb
      rw [ulebLoop] at hb
      split at hb
      · simp at hb
      · rename_i hz
        rw [List.dropLast_cons_of_ne_nil (ulebLoop_ne_nil _ _)] at hb
        have hlt : v / 128 < v := Nat.div_lt_self (by omega) (by omega)
        rcases List.mem_cons.mp hb with hb | hb
        · omega
        · exact ih (v / 128) (by omega) b hb

/-- C10. ULEB128 encoder correctness: decoding the emitted bytes as
base-128 little-endian recovers the value, the final byte has its high
bit clear, every earlier byte has the 0x80 continuation bit set, and the
encoding of 0 is the single byte 0x00. -/
theorem uleb128_encoder_correct (n : Nat) :
    decodeULEB128 (encodeULEB128 n) = n ∧
    (∀ b, (encodeULEB128 n).getLast? = some b → b < 128) ∧
    (∀ b ∈ (encodeULEB128 n).dropLast, 128 ≤ b) ∧
    encodeULEB128 0 = [0] :=
  ⟨decodeULEB128_encodeULEB128 n, ulebLoop_last_lt n n (le_refl n),
   ulebLoop_dropLast_ge n n (le_refl n), encodeULEB128_zero⟩

theorem decodeDynamic64LE_leBytes_cons (t v : Nat) (rest : List Nat) :
    decodeDynamic64LE (leBytes 8 t ++ (leBytes 8 v ++ rest)) =
      (t % 2 ^ 64, v % 2 ^ 64) :: decodeDynamic64LE rest := by
  have ht : fromLeBytes (leBytes 8 t) = t % 2 ^ 64 := by
    rw [fromLeBytes_leBytes]; norm_num
  have hv : fromLeBytes (leBytes 8 v) = v % 2 ^ 64 := by
    rw [fromLeBytes_leBytes]; norm_num
  rw [leBytes8_eq t, leBytes8_eq v] at *
  simp only [List.cons_append, List.nil_append]
  rw [decodeDynamic64LE, ht, hv]

theorem decodeDynamic64LE_dynamicSectionBytes (l : List (Nat × Nat)) :
    decodeDynamic64LE (dynamicSectionBytes true true l) =
      l.map (fun tv => (tv.1 % 2 ^ 64, tv.2 % 2 ^ 64)) := by
  induction l with
  | nil => rfl
  | cons tv l ih =>
      simp only [dynamicSectionBytes, List.flatMap_cons, ordBytes, if_true, List.map_cons]
      rw [List.append_assoc, decodeDynamic64LE_leBytes_cons]
      simpa [dynamicSectionBytes, ordBytes] using ih

/-- C1 (counterexample). The ELF serializer emits the dynamic section by
iterating the `DynamicTags` map, whose iteration order Go leaves
unspecified: visiting the same two tag/value pairs in the two possible
orders yields different byte streams, so an unedited file with at least
two dynamic tags need not re-serialize to its original bytes. -/
theorem elf_dynamic_section_bytes_order_dependent :
    dynamicSectionBytes true true [(3, 4), (1, 2)] ≠
      dynamicSectionBytes true true [(1, 2), (3, 4)] := by decide

/-- C1 (amended). Byte-identical round-tripping holds only up to the
dynamic section's record order: emitting the parsed tag map in any
iteration order and re-parsing yields a permutation of the parsed
`(tag, value)` pairs (stated for ELFCLASS64 little-endian; tags and
values are `uint64`, hence the bound). -/
theorem elf_dynamic_section_roundtrip_upto_perm (tags order : List (Nat × Nat))
    (hperm : order.Perm tags)
    (hbound : ∀ tv ∈ tags, tv.1 < 2 ^ 64 ∧ tv.2 < 2 ^ 64) :
    (decodeDynamic64LE (dynamicSectionBytes true true order)).Perm tags := by
  rw [decodeDynamic64LE_dynamicSectionBytes]
  have hmap : order.map (fun tv => (tv.1 % 2 ^ 64, tv.2 % 2 ^ 64)) = order := by
    conv_rhs => rw [← List.map_id order]
    apply List.map_congr_left
    intro a ha
    have hb := hbound a (hperm.mem_iff.mp ha)
    obtain ⟨x, y⟩ := a
    simp only [id_eq, Prod.mk.injEq]
    exact ⟨Nat.mod_eq_of_lt hb.1, Nat.mod_eq_of_lt hb.2⟩
  rw [hmap]
  exact hperm

/-- C1 (amended, witness). -/
theorem elf_dynamic_section_roundtrip_upto_perm_witness :
    ([((3 : Nat), (4 : Nat)), (1, 2)].Perm [(1, 2), (3, 4)]) ∧
    (decodeDynamic64LE (dynamicSectionBytes true true [(3, 4), (1, 2)])).Perm
      [(1, 2), (3, 4)] :=
  ⟨by decide,
   elf_dynamic_section_roundtrip_upto_perm [(1, 2), (3, 4)] [(3, 4), (1, 2)]
     (by decide) (by decide)⟩


/-- C2 (counterexample). `addRelocations` on a file whose allocated
`.rela.text` section lies in no `PT_LOAD` segment returns the
allocated-relayout error only after the relocation payload has been
replaced: the returned model differs from the pre-call model, refuting
the all-or-nothing claim for this verb. -/
theorem elf_addRelocations_relayout_failure_not_atomic :
    (addRelocationsSt exC2File (some 1) (.rela64 [{ off := 0, info := 0, addend := 0 }])
        false none).1 = some ElfErr.noPtLoadForSection ∧
    (addRelocationsSt exC2File (some 1) (.rela64 [{ off := 0, info := 0, addend := 0 }])
        false none).2 ≠ exC2File := by decide

/-- C2 (amended). Failures of the validation phase of `addRelocations`
(nil target, target absent from the section list, unresolvable
symbol-table link, symbol-table link mismatch) are raised before any
mutation, so the post-call model equals the pre-call model; a failure of
the allocated-section relayout, raised after the payload replacement,
instead leaves the mutated model behind (see the counterexample). -/
theorem elf_addRelocations_validation_errors_atomic
    (f : ElfFile) (target : Option Nat) (rels : RelEntries) (rep : Bool)
    (linkOverride : Option Nat) (e : ElfErr)
    (h : addRelocValidate f target rels linkOverride = .error e) :
    addRelocationsSt f target rels rep linkOverride = (some e, f) := by
  simp [addRelocationsSt, h]

/-- C2 (amended, witness). -/
theorem elf_addRelocations_validation_errors_atomic_witness :
    addRelocValidate exC2File none (.rela64 []) none = .error ElfErr.targetNil ∧
    addRelocationsSt exC2File none (.rela64 []) false none =
      (some ElfErr.targetNil, exC2File) :=
  ⟨by decide,
   elf_addRelocations_validation_errors_atomic exC2File none (.rela64 []) false none
     ElfErr.targetNil (by decide)⟩


theorem lookupDynTag_cons_false {e : DynTagValue} {l : List DynTagValue} {tg : Nat}
    (hbe : (e.tag == tg) = false) : lookupDynTag (e :: l) tg = lookupDynTag l tg := by
  simp [lookupDynTag, List.find?, hbe]

theorem setDynTag_cons_hit {e : DynTagValue} {rest : List DynTagValue} {t v : Nat}
    (he : (e.tag == t) = true) :
    setDynTag (e :: rest) t v = { tag := t, value := v } :: rest := by
  simp [setDynTag, List.findIdx?_cons, he]

theorem setDynTag_cons_miss {e : DynTagValue} {rest : List DynTagValue} {t v : Nat}
    (he : (e.tag == t) = false) :
    setDynTag (e :: rest) t v = e :: setDynTag rest t v := by
  simp only [setDynTag, List.findIdx?_cons, he, if_false, Bool.false_eq_true,
    List.findIdx?_start_succ]
  cases hidx : rest.findIdx? (fun x => x.tag == t) with
  | none => simp
  | some i => simp [List.set_cons_succ]

theorem lookupDynTag_setDynTag_same (tags : List DynTagValue) (t v : Nat) :
    lookupDynTag (setDynTag tags t v) t = some v := by
  induction tags with
  | nil => simp [setDynTag, lookupDynTag, List.find?]
  | cons e rest ih =>
      by_cases he : e.tag = t
      · rw [setDynTag_cons_hit (by simp [he])]
        simp [lookupDynTag, List.find?]
      · have hbe : (e.tag == t) = false := by simp [he]
        rw [setDynTag_cons_miss hbe, lookupDynTag_cons_false hbe]
        exact ih

theorem lookupDynTag_setDynTag_ne (tags : List DynTagValue) (t v tg : Nat) (h : tg ≠ t) :
    lookupDynTag (setDynTag tags t v) tg = lookupDynTag tags tg := by
  have hvt : (({ tag := t, value := v } : DynTagValue).tag == tg) = false := by
    simp; omega
  induction tags with
  | nil => simp [setDynTag, lookupDynTag, List.find?, hvt]
  | cons e rest ih =>
      by_cases he : e.tag = t
      · have hbe0 : (e.tag == tg) = false := by simp [he]; omega
        rw [setDynTag_cons_hit (by simp [he]), lookupDynTag_cons_false hvt,
          lookupDynTag_cons_false hbe0]
      · have hbe : (e.tag == t) = false := by simp [he]
        rw [setDynTag_cons_miss hbe]
        cases hetg : (e.tag == tg) with
        | true => simp [lookupDynTag, List.find?, hetg]
        | false =>
            rw [lookupDynTag_cons_false hetg, lookupDynTag_cons_false hetg]
            exact ih

theorem lookupDynTag_setDynTag3_ne (tags : List DynTagValue) (t1 v1 t2 v2 t3 v3 tg : Nat)
    (h1 : tg ≠ t1) (h2 : tg ≠ t2) (h3 : tg ≠ t3) :
    lookupDynTag (setDynTag (setDynTag (setDynTag tags t1 v1) t2 v2) t3 v3) tg =
      lookupDynTag tags tg := by
  rw [lookupDynTag_setDynTag_ne _ _ _ _ h3, lookupDynTag_setDynTag_ne _ _ _ _ h2,
    lookupDynTag_setDynTag_ne _ _ _ _ h1]

theorem lookupDynTag_setDynTag3 (tags : List DynTagValue) (t1 v1 t2 v2 t3 v3 : Nat)
    (h21 : t2 ≠ t1) (h31 : t3 ≠ t1) (h32 : t3 ≠ t2) :
    lookupDynTag (setDynTag (setDynTag (setDynTag tags t1 v1) t2 v2) t3 v3) t1 = some v1 ∧
    lookupDynTag (setDynTag (setDynTag (setDynTag tags t1 v1) t2 v2) t3 v3) t2 = some v2 ∧
    lookupDynTag (setDynTag (setDynTag (setDynTag tags t1 v1) t2 v2) t3 v3) t3 = some v3 := by
  refine ⟨?_, ?_, ?_⟩
  · rw [lookupDynTag_setDynTag_ne _ _ _ _ (Ne.symm h31), lookupDynTag_setDynTag_ne _ _ _ _ (Ne.symm h21),
      lookupDynTag_setDynTag_same]
  · rw [lookupDynTag_setDynTag_ne _ _ _ _ (Ne.symm h32), lookupDynTag_setDynTag_same]
  · rw [lookupDynTag_setDynTag_same]

theorem dynTagFamily_lt (s : ElfSection) : dynTagFamily s < 3 := by
  unfold dynTagFamily
  split
  · omega
  · split <;> omega

theorem famTagList_disjoint (F F' tg : Nat) (hF : F < 3) (hF' : F' < 3) (hne : F ≠ F')
    (h : tg ∈ famTagList F) : tg ∉ famTagList F' := by
  interval_cases F <;> interval_cases F' <;>
    simp_all [famTagList, DT_JMPREL, DT_PLTRELSZ, DT_PLTREL, DT_RELA, DT_RELASZ,
      DT_RELAENT, DT_REL, DT_RELSZ, DT_RELENT] <;> omega

theorem famAddrTag_mem (s : ElfSection) : famAddrTag s ∈ famTagList (dynTagFamily s) := by
  unfold famAddrTag dynTagFamily famTagList
  by_cases hplt : strContains s.name ".plt" = true
  · simp [hplt]
  · simp only [Bool.not_eq_true] at hplt
    by_cases hty : s.secType = SHT_RELA <;> simp [hplt, hty]

theorem famSizeTag_mem (s : ElfSection) : famSizeTag s ∈ famTagList (dynTagFamily s) := by
  unfold famSizeTag dynTagFamily famTagList
  by_cases hplt : strContains s.name ".plt" = true
  · simp [hplt]
  · simp only [Bool.not_eq_true] at hplt
    by_cases hty : s.secType = SHT_RELA <;> simp [hplt, hty]

theorem famThirdTag_mem (s : ElfSection) : famThirdTag s ∈ famTagList (dynTagFamily s) := by
  unfold famThirdTag dynTagFamily famTagList
  by_cases hplt : strContains s.name ".plt" = true
  · simp [hplt]
  · simp only [Bool.not_eq_true] at hplt
    by_cases hty : s.secType = SHT_RELA <;> simp [hplt, hty]

theorem lookupDynTag_applyDynRelocTags_preserve (tags : List DynTagValue) (s : ElfSection)
    (tg : Nat) (h : dynRelocQualifies s = true → tg ∉ famTagList (dynTagFamily s)) :
    lookupDynTag (applyDynRelocTags tags s) tg = lookupDynTag tags tg := by
  unfold applyDynRelocTags
  by_cases hq : dynRelocQualifies s = true
  · have htg := h hq
    simp only [hq, if_true]
    by_cases hplt : strContains s.name ".plt" = true
    · have hfam : dynTagFamily s = 0 := by simp [dynTagFamily, hplt]
      rw [hfam] at htg
      simp only [famTagList, List.mem_cons, List.not_mem_nil, DT_JMPREL, DT_PLTRELSZ,
        DT_PLTREL] at htg
      push_neg at htg
      by_cases hty : s.secType = SHT_RELA <;>
        simp only [hplt, hty, if_true, if_false] <;>
        exact lookupDynTag_setDynTag3_ne _ _ _ _ _ _ _ _
          (by simp [DT_JMPREL]; omega) (by simp [DT_PLTRELSZ]; omega) (by simp [DT_PLTREL]; omega)
    · have hplt' : strContains s.name ".plt" = false := by
        cases hx : strContains s.name ".plt" <;> simp_all
      by_cases hty : s.secType = SHT_RELA
      · have hfam : dynTagFamily s = 1 := by simp [dynTagFamily, hplt', hty]
        rw [hfam] at htg
        simp only [famTagList, List.mem_cons, List.not_mem_nil, DT_RELA, DT_RELASZ,
          DT_RELAENT] at htg
        push_neg at htg
        simp only [hplt', hty, if_true, if_false, Bool.false_eq_true]
        exact lookupDynTag_setDynTag3_ne _ _ _ _ _ _ _ _
          (by simp [DT_RELA]; omega) (by simp [DT_RELASZ]; omega) (by simp [DT_RELAENT]; omega)
      · have hfam : dynTagFamily s = 2 := by simp [dynTagFamily, hplt', hty]
        rw [hfam] at htg
        simp only [famTagList, List.mem_cons, List.not_mem_nil, DT_REL, DT_RELSZ,
          DT_RELENT] at htg
        push_neg at htg
        simp only [hplt', hty, if_false, Bool.false_eq_true]
        exact lookupDynTag_setDynTag3_ne _ _ _ _ _ _ _ _
          (by simp [DT_REL]; omega) (by simp [DT_RELSZ]; omega) (by simp [DT_RELENT]; omega)
  · have hq' : dynRelocQualifies s = false := by
      cases hx : dynRelocQualifies s <;> simp_all
    simp [hq']

theorem lookupDynTag_applyDynRelocTags_writes (tags : List DynTagValue) (s : ElfSection)
    (hq : dynRelocQualifies s = true) :
    lookupDynTag (applyDynRelocTags tags s) (famAddrTag s) = some s.addr ∧
    lookupDynTag (applyDynRelocTags tags s) (famSizeTag s) = some s.size ∧
    lookupDynTag (applyDynRelocTags tags s) (famThirdTag s) = some (famThirdVal s) := by
  unfold applyDynRelocTags famAddrTag famSizeTag famThirdTag famThirdVal
  simp only [hq, if_true]
  by_cases hplt : strContains s.name ".plt" = true
  · by_cases hty : s.secType = SHT_RELA <;>
      simp only [hplt, hty, if_true, if_false] <;>
      exact lookupDynTag_setDynTag3 _ _ _ _ _ _ _
        (by simp [DT_JMPREL, DT_PLTRELSZ]) (by simp [DT_JMPREL, DT_PLTREL])
        (by simp [DT_PLTRELSZ, DT_PLTREL])
  · have hplt' : strContains s.name ".plt" = false := by
      cases hx : strContains s.name ".plt" <;> simp_all
    by_cases hty : s.secType = SHT_RELA
    · simp only [hplt', hty, if_true, if_false, Bool.false_eq_true]
      exact lookupDynTag_setDynTag3 _ _ _ _ _ _ _
        (by simp [DT_RELA, DT_RELASZ]) (by simp [DT_RELA, DT_RELAENT])
        (by simp [DT_RELASZ, DT_RELAENT])
    · simp only [hplt', hty, if_false, Bool.false_eq_true]
      exact lookupDynTag_setDynTag3 _ _ _ _ _ _ _
        (by simp [DT_REL, DT_RELSZ]) (by simp [DT_REL, DT_RELENT])
        (by simp [DT_RELSZ, DT_RELENT])

theorem lookupDynTag_foldl_preserve (l : List ElfSection) (tags : List DynTagValue) (tg : Nat)
    (h : ∀ s ∈ l, dynRelocQualifies s = true → tg ∉ famTagList (dynTagFamily s)) :
    lookupDynTag (l.foldl applyDynRelocTags tags) tg = lookupDynTag tags tg := by
  induction l generalizing tags with
  | nil => rfl
  | cons s l ih =>
      simp only [List.foldl_cons]
      rw [ih _ (fun s' hs' => h s' (List.mem_cons_of_mem _ hs')),
        lookupDynTag_applyDynRelocTags_preserve _ _ _ (h s (List.mem_cons_self _ _))]

/-- C3 (counterexample). After a successful relocation edit verb
(`RemoveRelocationsFromRelocSection` here), a file with two allocated
non-PLT RELA sections cannot satisfy the per-section tag agreement: the
first qualifying section's address differs from the final `DT_RELA`
value, because `updateDynamicRelocTags` lets the last section in list
order win each tag family. -/
theorem elf_dyn_tags_disagree_with_earlier_section :
    (removeRelocationsFromRelocSection exC3File ".rela.one").1 = none ∧
    (removeRelocationsFromRelocSection exC3File ".rela.one").2.dynTags ≠ [] ∧
    dynRelocQualifies
      ((removeRelocationsFromRelocSection exC3File ".rela.one").2.sections.getD 0 default) = true ∧
    lookupDynTag (removeRelocationsFromRelocSection exC3File ".rela.one").2.dynTags DT_RELA ≠
      some ((removeRelocationsFromRelocSection exC3File ".rela.one").2.sections.getD 0
        default).addr := by decide

/-- C3 (amended). After `updateDynamicRelocTags` runs (it is the final
step of every ELF relocation edit verb), the dynamic tag list — when
non-empty — agrees with the LAST qualifying section of each tag family
in section-list order: for a qualifying section `s` with no later
qualifying section of the same family, the family's address tag holds
`s.addr`, its size tag holds `s.size`, and its third tag holds
`DT_RELA`/`DT_REL` for PLT-named sections and `s.entsize` otherwise. -/
theorem elf_dyn_tags_agree_with_last_qualifying (f : ElfFile) (pre post : List ElfSection)
    (s : ElfSection) (hsec : f.sections = pre ++ s :: post) (hne : f.dynTags ≠ [])
    (hq : dynRelocQualifies s = true)
    (hlast : ∀ s' ∈ post, dynRelocQualifies s' = true → dynTagFamily s' ≠ dynTagFamily s) :
    lookupDynTag (updateDynamicRelocTags f).dynTags (famAddrTag s) = some s.addr ∧
    lookupDynTag (updateDynamicRelocTags f).dynTags (famSizeTag s) = some s.size ∧
    lookupDynTag (updateDynamicRelocTags f).dynTags (famThirdTag s) = some (famThirdVal s) := by
  unfold updateDynamicRelocTags
  have hne' : f.dynTags.isEmpty = false := by
    cases h : f.dynTags <;> simp_all
  simp only [hne', Bool.false_eq_true, if_false, hsec, List.foldl_append, List.foldl_cons]
  have hpost : ∀ tg, tg ∈ famTagList (dynTagFamily s) →
      lookupDynTag (post.foldl applyDynRelocTags
        (applyDynRelocTags (pre.foldl applyDynRelocTags f.dynTags) s)) tg =
      lookupDynTag (applyDynRelocTags (pre.foldl applyDynRelocTags f.dynTags) s) tg := by
    intro tg htg
    exact lookupDynTag_foldl_preserve _ _ _ (fun s' hs' hq' =>
      famTagList_disjoint _ _ _ (dynTagFamily_lt s) (dynTagFamily_lt s')
        (Ne.symm (hlast s' hs' hq')) htg)
  have hw := lookupDynTag_applyDynRelocTags_writes (pre.foldl applyDynRelocTags f.dynTags) s hq
  exact ⟨(hpost _ (famAddrTag_mem s)).trans hw.1,
    (hpost _ (famSizeTag_mem s)).trans hw.2.1,
    (hpost _ (famThirdTag_mem s)).trans hw.2.2⟩

/-- C3 (amended, witness). -/
theorem elf_dyn_tags_agree_with_last_qualifying_witness :
    exC3WFile.sections = [] ++ exC3SecA :: [] ∧
    lookupDynTag (updateDynamicRelocTags exC3WFile).dynTags (famAddrTag exC3SecA) =
      some exC3SecA.addr ∧
    lookupDynTag (updateDynamicRelocTags exC3WFile).dynTags (famSizeTag exC3SecA) =
      some exC3SecA.size ∧
    lookupDynTag (updateDynamicRelocTags exC3WFile).dynTags (famThirdTag exC3SecA) =
      some (famThirdVal exC3SecA) := by
  have h := elf_dyn_tags_agree_with_last_qualifying exC3WFile [] [] exC3SecA rfl
    (by decide) (by decide) (by intro s' hs'; cases hs')
  exact ⟨rfl, h.1, h.2.1, h.2.2⟩

theorem getD_set_ne {α : Type _} (l : List α) (i j : Nat) (a d : α) (h : j ≠ i) :
    (l.set i a).getD j d = l.getD j d := by
  induction l generalizing i j with
  | nil => simp [List.set]
  | cons x xs ih =>
      cases i with
      | zero =>
          cases j with
          | zero => omega
          | succ j => rw [List.set_cons_zero, List.getD_cons_succ, List.getD_cons_succ]
      | succ i =>
          cases j with
          | zero => rw [List.set_cons_succ, List.getD_cons_zero, List.getD_cons_zero]
          | succ j =>
              rw [List.set_cons_succ, List.getD_cons_succ, List.getD_cons_succ]
              exact ih i j (by omega)

theorem getD_set_eq {α : Type _} (l : List α) (i : Nat) (a d : α) (h : i < l.length) :
    (l.set i a).getD i d = a := by
  induction l generalizing i with
  | nil => simp at h
  | cons x xs ih =>
      cases i with
      | zero => rw [List.set_cons_zero, List.getD_cons_zero]
      | succ i =>
          rw [List.set_cons_succ, List.getD_cons_succ]
          exact ih i (by simp at h; omega)

theorem getD_append_length {α : Type _} (l : List α) (a d : α) :
    (l ++ [a]).getD l.length d = a := by
  induction l with
  | nil => rfl
  | cons x xs ih =>
      rw [List.cons_append, List.length_cons, List.getD_cons_succ]
      exact ih

theorem secCore_relayoutStep (st : List ElfSection × Nat) (i j : Nat) :
    secCore ((relayoutStep st i).1.getD j default) = secCore (st.1.getD j default) ∧
    (relayoutStep st i).1.length = st.1.length := by
  simp only [relayoutStep]
  split
  · exact ⟨rfl, rfl⟩
  · refine ⟨?_, by simp⟩
    by_cases hj : j = i
    · subst hj
      by_cases hlt : j < st.1.length
      · rw [getD_set_eq _ _ _ _ hlt]
        rfl
      · rw [List.set_eq_of_length_le (by omega)]
    · rw [getD_set_ne _ _ _ _ _ hj]

theorem secCore_relayoutFold (idxs : List Nat) (st : List ElfSection × Nat) (j : Nat) :
    secCore ((idxs.foldl relayoutStep st).1.getD j default) = secCore (st.1.getD j default) ∧
    (idxs.foldl relayoutStep st).1.length = st.1.length := by
  induction idxs generalizing st with
  | nil => exact ⟨rfl, rfl⟩
  | cons i idxs ih =>
      simp only [List.foldl_cons]
      have h1 := secCore_relayoutStep st i j
      have h2 := ih (relayoutStep st i)
      exact ⟨h2.1.trans h1.1, h2.2.trans h1.2⟩

theorem relayoutRelocationSections_sections (f : ElfFile) (b : Bool) (j : Nat) :
    secCore ((relayoutRelocationSections f b).sections.getD j default) =
      secCore (f.sections.getD j default) ∧
    (relayoutRelocationSections f b).sections.length = f.sections.length := by
  unfold relayoutRelocationSections
  by_cases hb : (relayoutMovedIdx f b).isEmpty
  · rw [if_pos hb]
    exact ⟨rfl, rfl⟩
  · rw [if_neg hb]
    exact secCore_relayoutFold _ _ j

theorem updateDynamicRelocTags_sections (f : ElfFile) :
    (updateDynamicRelocTags f).sections = f.sections := by
  unfold updateDynamicRelocTags
  split <;> rfl

theorem ensureSectionName_ok (f : ElfFile) (sec : ElfSection) (hname : ¬sec.name = "")
    (hsh0 : 0 ≤ f.shStrIndex) (hsh1 : f.shStrIndex < (f.sections.length : Int)) :
    ∃ fsm : ElfFile × ElfSection × Bool, ensureSectionName f sec = .ok fsm ∧
      fsm.1.sections.length = f.sections.length ∧
      ∃ n, fsm.2.1 = { sec with shname := n } := by
  unfold ensureSectionName
  rw [if_neg hname, if_pos ⟨hsh0, hsh1⟩]
  dsimp only
  cases hio : indexOfSeq (strBytes sec.name ++ [0])
      (sectionData (f.sections.getD f.shStrIndex.toNat default)) with
  | some idx => exact ⟨_, rfl, rfl, idx, rfl⟩
  | none => exact ⟨_, rfl, by simp, _, rfl⟩

theorem addRelocValidate_new (f : ElfFile) (ti : Nat) (rels : RelEntries) (k : Nat)
    (hti : ti < f.sections.length)
    (hidx : relocationSectionIdx f ti (encodeRelocations f.littleEndian rels).2.1 = none)
    (hsym : defaultSymtabIndex f = some k) :
    addRelocValidate f (some ti) rels none = .ok
      { targetIndex := ti, data := (encodeRelocations f.littleEndian rels).1,
        relType := (encodeRelocations f.littleEndian rels).2.1,
        entSize := (encodeRelocations f.littleEndian rels).2.2,
        relocIdx := none,
        relocSec :=
          { name := relocationSectionName (f.sections.getD ti default).name
              (encodeRelocations f.littleEndian rels).2.1,
            shname := 0, secType := (encodeRelocations f.littleEndian rels).2.1, flags := 0,
            addr := 0, offset := 0, size := 0, link := k, info := ti,
            addralign := relocationAlign f.elfClass,
            entsize := (encodeRelocations f.littleEndian rels).2.2, fileSize := 0,
            payload := none },
        newSection := true } := by
  simp only [addRelocValidate, hti, if_true, hidx, hsym]
  norm_num

theorem addRelocCommit_new_success (f : ElfFile) (plan : AddRelocPlan)
    (hnew : plan.newSection = true) (hidx : plan.relocIdx = none)
    (hflags : plan.relocSec.flags = 0) (hname : ¬plan.relocSec.name = "")
    (hsh0 : 0 ≤ f.shStrIndex) (hsh1 : f.shStrIndex < (f.sections.length : Int)) :
    (addRelocCommit f plan false).1 = none ∧
    (addRelocCommit f plan false).2.sections.length = f.sections.length + 1 ∧
    ((addRelocCommit f plan false).2.sections.getD f.sections.length default).secType =
      plan.relocSec.secType ∧
    ((addRelocCommit f plan false).2.sections.getD f.sections.length default).info =
      plan.relocSec.info := by
  unfold addRelocCommit
  rw [hidx]
  have hname' : ¬(replaceSection plan.relocSec
      ((match plan.relocSec.payload with | some p => p | none => []) ++ plan.data)).name = "" :=
    hname
  obtain ⟨fsm, hens, hlen2, n, hsec2⟩ := ensureSectionName_ok f _ hname' hsh0 hsh1
  simp only [Bool.false_eq_true, if_false, writeBackSection, hens, hnew, if_true]
  obtain ⟨f2, sec2, m⟩ := fsm
  simp only at hlen2 hsec2 ⊢
  have hflags2 : sec2.flags = 0 := by rw [hsec2]; exact hflags
  have hcond : ¬(sec2.flags &&& SHF_ALLOC ≠ 0 ∧ sec2.fileSize ≠ plan.relocSec.fileSize) := by
    rw [hflags2]
    intro hc
    exact hc.1 rfl
  rw [if_neg hcond]
  have hN : f.sections.length = f2.sections.length := hlen2.symm
  have hrel := relayoutRelocationSections_sections
    { f2 with sections := f2.sections ++ [sec2] } true f.sections.length
  have hgetD : (f2.sections ++ [sec2]).getD f.sections.length default = sec2 := by
    rw [hN]
    exact getD_append_length _ _ _
  refine ⟨rfl, ?_, ?_, ?_⟩
  · rw [updateDynamicRelocTags_sections, hrel.2]
    simp [hN]
  · rw [updateDynamicRelocTags_sections]
    have := hrel.1
    rw [show ({ f2 with sections := f2.sections ++ [sec2] } : ElfFile).sections =
      f2.sections ++ [sec2] from rfl, hgetD] at this
    have hst : sec2.secType = plan.relocSec.secType := by rw [hsec2]; rfl
    calc ((relayoutRelocationSections { f2 with sections := f2.sections ++ [sec2] } true).sections.getD
            f.sections.length default).secType
        = (secCore ((relayoutRelocationSections { f2 with sections := f2.sections ++ [sec2] }
            true).sections.getD f.sections.length default)).secType := rfl
      _ = (secCore sec2).secType := by rw [this]
      _ = plan.relocSec.secType := hst
  · rw [updateDynamicRelocTags_sections]
    have := hrel.1
    rw [show ({ f2 with sections := f2.sections ++ [sec2] } : ElfFile).sections =
      f2.sections ++ [sec2] from rfl, hgetD] at this
    have hin : sec2.info = plan.relocSec.info := by rw [hsec2]; rfl
    calc ((relayoutRelocationSections { f2 with sections := f2.sections ++ [sec2] } true).sections.getD
            f.sections.length default).info
        = (secCore ((relayoutRelocationSections { f2 with sections := f2.sections ++ [sec2] }
            true).sections.getD f.sections.length default)).info := rfl
      _ = (secCore sec2).info := by rw [this]
      _ = plan.relocSec.info := hin

/-- C6 (counterexample). A REL entry added to a target that already has
a RELA relocation section attached is accepted, not rejected: the call
succeeds and creates a second, separate `.rel.text` section of type
`SHT_REL` for the same target. -/
theorem elf_addRelocations_accepts_rel_with_existing_rela :
    relocationSectionIdx exC6File 1 SHT_RELA = some 2 ∧
    (addRelocationsSt exC6File (some 1) (.rel64 [{ off := 0, info := 0 }]) false none).1 =
      none ∧
    ((addRelocationsSt exC6File (some 1) (.rel64 [{ off := 0, info := 0 }]) false
        none).2.sections.getD 4 default).secType = SHT_REL ∧
    ((addRelocationsSt exC6File (some 1) (.rel64 [{ off := 0, info := 0 }]) false
        none).2.sections.getD 4 default).info = 1 := by decide

/-- C6 (amended). `AddRelocation`/`AddRelocations` fails when the target
section is nil or absent from the section list; but an entry whose
REL/RELA kind differs from the relocation section already attached to
the target is NOT rejected — it is appended to a new, separate
relocation section of its own kind (REL and RELA never mix within one
section because a section of the other kind is never matched). -/
theorem elf_addRelocations_rejects_only_missing_target (f : ElfFile) (rels : RelEntries)
    (rep : Bool) (lo : Option Nat) :
    (addRelocationsSt f none rels rep lo = (some ElfErr.targetNil, f)) ∧
    (∀ ti, f.sections.length ≤ ti →
      addRelocationsSt f (some ti) rels rep lo = (some ElfErr.targetNotFound, f)) ∧
    (∀ ti k, ti < f.sections.length →
      relocationSectionIdx f ti (encodeRelocations f.littleEndian rels).2.1 = none →
      defaultSymtabIndex f = some k →
      0 ≤ f.shStrIndex → f.shStrIndex < (f.sections.length : Int) →
      (addRelocationsSt f (some ti) rels false none).1 = none ∧
      (addRelocationsSt f (some ti) rels false none).2.sections.length =
        f.sections.length + 1 ∧
      ((addRelocationsSt f (some ti) rels false none).2.sections.getD f.sections.length
        default).secType = (encodeRelocations f.littleEndian rels).2.1 ∧
      ((addRelocationsSt f (some ti) rels false none).2.sections.getD f.sections.length
        default).info = ti) := by
  refine ⟨?_, ?_, ?_⟩
  · rfl
  · intro ti hti
    have hv : addRelocValidate f (some ti) rels lo = .error .targetNotFound := by
      unfold addRelocValidate
      dsimp only
      rw [if_neg (by omega)]
    unfold addRelocationsSt
    rw [hv]
  · intro ti k hti hidx hsym hsh0 hsh1
    have hval := addRelocValidate_new f ti rels k hti hidx hsym
    have hrelname : ¬relocationSectionName (f.sections.getD ti default).name
        (encodeRelocations f.littleEndian rels).2.1 = "" := by
      unfold relocationSectionName
      split
      · intro h
        have hlen := congrArg String.length h
        rw [String.length_append] at hlen
        have h5 : (".rela" : String).length = 5 := rfl
        have h0 : ("" : String).length = 0 := rfl
        omega
      · intro h
        have hlen := congrArg String.length h
        rw [String.length_append] at hlen
        have h4 : (".rel" : String).length = 4 := rfl
        have h0 : ("" : String).length = 0 := rfl
        omega
    have hcom := addRelocCommit_new_success f
      { targetIndex := ti, data := (encodeRelocations f.littleEndian rels).1,
        relType := (encodeRelocations f.littleEndian rels).2.1,
        entSize := (encodeRelocations f.littleEndian rels).2.2,
        relocIdx := none,
        relocSec :=
          { name := relocationSectionName (f.sections.getD ti default).name
              (encodeRelocations f.littleEndian rels).2.1,
            shname := 0, secType := (encodeRelocations f.littleEndian rels).2.1, flags := 0,
            addr := 0, offset := 0, size := 0, link := k, info := ti,
            addralign := relocationAlign f.elfClass,
            entsize := (encodeRelocations f.littleEndian rels).2.2, fileSize := 0,
            payload := none },
        newSection := true } rfl rfl rfl hrelname hsh0 hsh1
    simp only [addRelocationsSt, hval]
    exact hcom

/-- C6 (amended, witness). -/
theorem elf_addRelocations_rejects_only_missing_target_witness :
    addRelocationsSt exC6File none (.rel64 []) false none =
      (some ElfErr.targetNil, exC6File) ∧
    addRelocationsSt exC6File (some 9) (.rel64 []) false none =
      (some ElfErr.targetNotFound, exC6File) ∧
    (addRelocationsSt exC6File (some 1) (.rel64 []) false none).1 = none := by
  have h := elf_addRelocations_rejects_only_missing_target exC6File (.rel64 []) false none
  exact ⟨h.1, h.2.1 9 (by decide),
    (h.2.2 1 3 (by decide) (by decide) (by decide) (by decide) (by decide)).1⟩

theorem secCore_getD_set_update (l : List ElfSection) (si j : Nat) (s' : ElfSection)
    (hs' : secCore s' = secCore (l.getD si default)) :
    secCore ((l.set si s').getD j default) = secCore (l.getD j default) := by
  by_cases hj : j = si
  · subst hj
    by_cases hlt : j < l.length
    · rw [getD_set_eq _ _ _ _ hlt]
      exact hs'
    · rw [List.set_eq_of_length_le (by omega)]
  · rw [getD_set_ne _ _ _ _ _ hj]

theorem ensureSectionName_error_kinds (f : ElfFile) (sec : ElfSection) (e : ElfErr)
    (h : ensureSectionName f sec = .error e) : e = .invalidShstrndx := by
  unfold ensureSectionName at h
  split at h
  · cases h
  · split at h
    · dsimp only at h
      split at h <;> cases h
    · injection h with h1
      exact h1.symm

theorem ensureSectionName_ok_shape (f : ElfFile) (sec : ElfSection) (f2 : ElfFile)
    (sec2 : ElfSection) (m : Bool) (h : ensureSectionName f sec = .ok (f2, sec2, m)) :
    f2.sections.length = f.sections.length ∧ ∃ n, sec2 = { sec with shname := n } := by
  unfold ensureSectionName at h
  split at h
  · injection h with h1
    rw [Prod.mk.injEq, Prod.mk.injEq] at h1
    refine ⟨by rw [← h1.1], sec.shname, ?_⟩
    rw [← h1.2.1]
  · split at h
    · dsimp only at h
      split at h
      · injection h with h1
        rw [Prod.mk.injEq, Prod.mk.injEq] at h1
        refine ⟨by rw [← h1.1], _, by rw [← h1.2.1]⟩
      · injection h with h1
        rw [Prod.mk.injEq, Prod.mk.injEq] at h1
        refine ⟨by rw [← h1.1]; simp, _, by rw [← h1.2.1]⟩
    · cases h

theorem relayoutAllocNewLoad_sections (f : ElfFile) (si : Nat) (f' : ElfFile)
    (h : relayoutAllocRelocationSectionNewLoad f si = .ok f') (j : Nat) :
    secCore (f'.sections.getD j default) = secCore (f.sections.getD j default) ∧
    f'.sections.length = f.sections.length := by
  unfold relayoutAllocRelocationSectionNewLoad at h
  dsimp only at h
  split at h
  · cases h
  · repeat' split at h
    all_goals
      injection h with h1
    all_goals
      subst h1
    all_goals
      exact ⟨secCore_getD_set_update _ _ _ _ rfl, by simp⟩

theorem relayoutAllocNewLoad_error_kinds (f : ElfFile) (si : Nat) (e : ElfErr)
    (h : relayoutAllocRelocationSectionNewLoad f si = .error e) : e = .noLoadSegments := by
  unfold relayoutAllocRelocationSectionNewLoad at h
  dsimp only at h
  split at h
  · injection h with h1
    exact h1.symm
  · repeat' split at h
    all_goals cases h

theorem relayoutAllocRelocationSection_sections (f : ElfFile) (si : Nat) (f' : ElfFile)
    (h : relayoutAllocRelocationSection f si = .ok f') (j : Nat) :
    secCore (f'.sections.getD j default) = secCore (f.sections.getD j default) ∧
    f'.sections.length = f.sections.length := by
  unfold relayoutAllocRelocationSection at h
  dsimp only at h
  split at h
  · injection h with h1
    subst h1
    exact ⟨rfl, rfl⟩
  · split at h
    · cases h
    · repeat' split at h
      all_goals first
        | exact relayoutAllocNewLoad_sections _ _ _ h j
        | (injection h with h1
           subst h1
           exact ⟨secCore_getD_set_update _ _ _ _ rfl, by simp⟩)

theorem relayoutAllocRelocationSection_error_kinds (f : ElfFile) (si : Nat) (e : ElfErr)
    (h : relayoutAllocRelocationSection f si = .error e) :
    e = .noPtLoadForSection ∨ e = .noLoadSegments := by
  unfold relayoutAllocRelocationSection at h
  dsimp only at h
  split at h
  · cases h
  · split at h
    · injection h with h1
      exact Or.inl h1.symm
    · repeat' split at h
      all_goals first
        | exact Or.inr (relayoutAllocNewLoad_error_kinds _ _ _ h)
        | cases h

theorem relocationSectionIdx_spec (f : ElfFile) (ti rt ri : Nat)
    (h : relocationSectionIdx f ti rt = some ri) :
    ri < f.sections.length ∧ (f.sections.getD ri default).secType = rt ∧
    (f.sections.getD ri default).info = ti := by
  unfold relocationSectionIdx at h
  obtain ⟨hlt, hp, -⟩ := List.findIdx?_eq_some_iff_getElem.mp h
  have hgd : f.sections.getD ri default = f.sections[ri] := by
    rw [List.getD_eq_getElem?_getD, List.getElem?_eq_getElem hlt]
    rfl
  rw [hgd]
  simp only [Bool.and_eq_true, beq_iff_eq] at hp
  exact ⟨hlt, hp.1, hp.2⟩

theorem addRelocValidate_error_kinds (f : ElfFile) (target : Option Nat) (rels : RelEntries)
    (lo : Option Nat) (e : ElfErr) (h : addRelocValidate f target rels lo = .error e) :
    e = .targetNil ∨ e = .targetNotFound ∨ e = .noSymbolTable ∨ e = .linkMismatch := by
  unfold addRelocValidate at h
  cases target with
  | none =>
      dsimp only at h
      injection h with h1
      exact Or.inl h1.symm
  | some ti =>
      dsimp only at h
      repeat' split at h
      all_goals first
        | (injection h with h1; subst h1; simp)
        | cases h

theorem addRelocValidate_ok_shape (f : ElfFile) (ti : Nat) (rels : RelEntries)
    (lo : Option Nat) (plan : AddRelocPlan)
    (h : addRelocValidate f (some ti) rels lo = .ok plan) :
    plan.relocSec.secType = (encodeRelocations f.littleEndian rels).2.1 ∧
    plan.relocSec.info = ti ∧
    (∀ ri, plan.relocIdx = some ri → ri < f.sections.length) ∧
    (plan.newSection = false → plan.relocIdx.isSome) := by
  unfold addRelocValidate at h
  dsimp only at h
  split at h
  · rename_i hti
    cases hidx : relocationSectionIdx f ti (encodeRelocations f.littleEndian rels).2.1 with
    | none =>
        rw [hidx] at h
        dsimp only at h
        repeat' split at h
        all_goals try cases h
        refine ⟨rfl, rfl, ?_, ?_⟩
        · intro ri hri
          cases hri
        · intro hn
          cases hn
    | some ri =>
        rw [hidx] at h
        dsimp only at h
        have hspec := relocationSectionIdx_spec f ti _ ri hidx
        repeat' split at h
        all_goals try cases h
        refine ⟨hspec.2.1, rfl, ?_, fun _ => rfl⟩
        intro r hr
        injection hr with hr
        have := hspec.1
        omega
  · cases h

theorem addRelocCommit_error_kinds (f : ElfFile) (plan : AddRelocPlan) (rep : Bool)
    (e : ElfErr) (f' : ElfFile) (h : addRelocCommit f plan rep = (some e, f')) :
    e = .invalidShstrndx ∨ e = .noPtLoadForSection ∨ e = .noLoadSegments := by
  unfold addRelocCommit at h
  dsimp only at h
  cases hens : ensureSectionName (writeBackSection f plan.relocIdx
      (replaceSection plan.relocSec
        (if rep = true then plan.data
         else (match plan.relocSec.payload with | some p => p | none => []) ++ plan.data)))
      (replaceSection plan.relocSec
        (if rep = true then plan.data
         else (match plan.relocSec.payload with | some p => p | none => []) ++ plan.data)) with
  | error e2 =>
      rw [hens] at h
      rw [Prod.mk.injEq] at h
      injection h.1 with h1
      subst h1
      exact Or.inl (ensureSectionName_error_kinds _ _ _ hens)
  | ok fsm =>
      rw [hens] at h
      obtain ⟨f2, sec2, m⟩ := fsm
      dsimp only at h
      split at h
      · split at h
        · rename_i e2 heq
          rw [Prod.mk.injEq] at h
          injection h.1 with h1
          subst h1
          exact Or.inr (relayoutAllocRelocationSection_error_kinds _ _ _ heq)
        · rw [Prod.mk.injEq] at h
          cases h.1
      · rw [Prod.mk.injEq] at h
        cases h.1

theorem writeBackSection_length (f : ElfFile) (idx : Option Nat) (sec : ElfSection) :
    (writeBackSection f idx sec).sections.length = f.sections.length := by
  unfold writeBackSection
  cases idx <;> simp

theorem post_core_fields (g : ElfFile) (b : Bool) (J : Nat) (s : ElfSection)
    (hget : g.sections.getD J default = s) (hJ : J < g.sections.length) :
    ((relayoutRelocationSections g b).sections.getD J default).secType = s.secType ∧
    ((relayoutRelocationSections g b).sections.getD J default).info = s.info ∧
    J < (relayoutRelocationSections g b).sections.length := by
  have h := relayoutRelocationSections_sections g b J
  have e1' := congrArg ElfSection.secType h.1
  have e2' := congrArg ElfSection.info h.1
  have e1 : ((relayoutRelocationSections g b).sections.getD J default).secType =
      (g.sections.getD J default).secType := e1'
  have e2 : ((relayoutRelocationSections g b).sections.getD J default).info =
      (g.sections.getD J default).info := e2'
  exact ⟨e1.trans (congrArg ElfSection.secType hget),
    e2.trans (congrArg ElfSection.info hget), by rw [h.2]; exact hJ⟩

theorem alloc_core_fields (g : ElfFile) (si : Nat) (f6 : ElfFile) (J : Nat)
    (h : relayoutAllocRelocationSection g si = .ok f6) :
    (f6.sections.getD J default).secType = (g.sections.getD J default).secType ∧
    (f6.sections.getD J default).info = (g.sections.getD J default).info ∧
    f6.sections.length = g.sections.length := by
  have hh := relayoutAllocRelocationSection_sections g si f6 h J
  have e1' := congrArg ElfSection.secType hh.1
  have e2' := congrArg ElfSection.info hh.1
  have e1 : (f6.sections.getD J default).secType = (g.sections.getD J default).secType := e1'
  have e2 : (f6.sections.getD J default).info = (g.sections.getD J default).info := e2'
  exact ⟨e1, e2, hh.2⟩

theorem addRelocCommit_success_post (f : ElfFile) (plan : AddRelocPlan) (rep : Bool)
    (f' : ElfFile)
    (hb : ∀ ri, plan.relocIdx = some ri → ri < f.sections.length)
    (hcons : plan.newSection = false → plan.relocIdx.isSome)
    (h : addRelocCommit f plan rep = (none, f')) :
    ∃ j, j < f'.sections.length ∧
      (f'.sections.getD j default).secType = plan.relocSec.secType ∧
      (f'.sections.getD j default).info = plan.relocSec.info := by
  unfold addRelocCommit at h
  dsimp only at h
  cases hens : ensureSectionName (writeBackSection f plan.relocIdx
      (replaceSection plan.relocSec
        (if rep = true then plan.data
         else (match plan.relocSec.payload with | some p => p | none => []) ++ plan.data)))
      (replaceSection plan.relocSec
        (if rep = true then plan.data
         else (match plan.relocSec.payload with | some p => p | none => []) ++ plan.data)) with
  | error e2 =>
      rw [hens] at h
      rw [Prod.mk.injEq] at h
      cases h.1
  | ok fsm =>
      obtain ⟨f2, sec2, m⟩ := fsm
      rw [hens] at h
      dsimp only at h
      obtain ⟨hlen2, n, hsec2⟩ := ensureSectionName_ok_shape _ _ _ _ _ hens
      rw [writeBackSection_length] at hlen2
      have hsecT : sec2.secType = plan.relocSec.secType := by rw [hsec2]; rfl
      have hinfo : sec2.info = plan.relocSec.info := by rw [hsec2]; rfl
      by_cases hnew : plan.newSection = true
      · simp only [hnew, if_true] at h
        have hpost := post_core_fields
          { writeBackSection f2 plan.relocIdx sec2 with
            sections := (writeBackSection f2 plan.relocIdx sec2).sections ++ [sec2] }
          true (writeBackSection f2 plan.relocIdx sec2).sections.length sec2
          (getD_append_length _ _ _) (by simp)
        split at h
        · split at h
          · rw [Prod.mk.injEq] at h
            cases h.1
          · rename_i f6 heq
            rw [Prod.mk.injEq] at h
            obtain ⟨-, h2⟩ := h
            subst h2
            have halloc := alloc_core_fields _ _ _
              (writeBackSection f2 plan.relocIdx sec2).sections.length heq
            refine ⟨(writeBackSection f2 plan.relocIdx sec2).sections.length, ?_, ?_, ?_⟩
            · rw [updateDynamicRelocTags_sections, halloc.2.2]
              exact hpost.2.2
            · rw [updateDynamicRelocTags_sections]
              rw [halloc.1, hpost.1]
              exact hsecT
            · rw [updateDynamicRelocTags_sections]
              rw [halloc.2.1, hpost.2.1]
              exact hinfo
        · rw [Prod.mk.injEq] at h
          obtain ⟨-, h2⟩ := h
          subst h2
          refine ⟨(writeBackSection f2 plan.relocIdx sec2).sections.length, ?_, ?_, ?_⟩
          · rw [updateDynamicRelocTags_sections]
            exact hpost.2.2
          · rw [updateDynamicRelocTags_sections]
            rw [hpost.1]
            exact hsecT
          · rw [updateDynamicRelocTags_sections]
            rw [hpost.2.1]
            exact hinfo
      · have hnew' : plan.newSection = false := by
          cases hx : plan.newSection
          · rfl
          · exact absurd hx hnew
        obtain ⟨ri, hri⟩ := Option.isSome_iff_exists.mp (hcons hnew')
        simp only [hnew', Bool.false_eq_true, if_false, hri, Option.getD_some] at h
        have hriLt : ri < f2.sections.length := by
          rw [hlen2]
          exact hb ri hri
        have hget : (writeBackSection f2 (some ri) sec2).sections.getD ri default = sec2 := by
          unfold writeBackSection
          exact getD_set_eq _ _ _ _ hriLt
        have hpost := post_core_fields (writeBackSection f2 (some ri) sec2) m ri sec2 hget
          (by rw [writeBackSection_length]; exact hriLt)
        split at h
        · split at h
          · rw [Prod.mk.injEq] at h
            cases h.1
          · rename_i f6 heq
            rw [Prod.mk.injEq] at h
            obtain ⟨-, h2⟩ := h
            subst h2
            have halloc := alloc_core_fields _ _ _ ri heq
            refine ⟨ri, ?_, ?_, ?_⟩
            · rw [updateDynamicRelocTags_sections, halloc.2.2]
              exact hpost.2.2
            · rw [updateDynamicRelocTags_sections]
              rw [halloc.1, hpost.1]
              exact hsecT
            · rw [updateDynamicRelocTags_sections]
              rw [halloc.2.1, hpost.2.1]
              exact hinfo
        · rw [Prod.mk.injEq] at h
          obtain ⟨-, h2⟩ := h
          subst h2
          refine ⟨ri, ?_, ?_, ?_⟩
          · rw [updateDynamicRelocTags_sections]
            exact hpost.2.2
          · rw [updateDynamicRelocTags_sections]
            rw [hpost.1]
            exact hsecT
          · rw [updateDynamicRelocTags_sections]
            rw [hpost.2.1]
            exact hinfo

theorem addRelocationsSt_success_post (f : ElfFile) (ti : Nat) (rels : RelEntries)
    (rep : Bool) (lo : Option Nat) (f' : ElfFile)
    (h : addRelocationsSt f (some ti) rels rep lo = (none, f')) :
    ∃ j, j < f'.sections.length ∧
      (f'.sections.getD j default).secType = (encodeRelocations f.littleEndian rels).2.1 ∧
      (f'.sections.getD j default).info = ti := by
  unfold addRelocationsSt at h
  cases hv : addRelocValidate f (some ti) rels lo with
  | error e =>
      rw [hv] at h
      rw [Prod.mk.injEq] at h
      cases h.1
  | ok plan =>
      rw [hv] at h
      dsimp only at h
      have hshape := addRelocValidate_ok_shape f ti rels lo plan hv
      have hpost := addRelocCommit_success_post f plan rep f' hshape.2.2.1 hshape.2.2.2 h
      obtain ⟨j, hj1, hj2, hj3⟩ := hpost
      exact ⟨j, hj1, hj2.trans hshape.1, hj3.trans hshape.2.1⟩

theorem addRelocationsSt_no_symbolNotFound (f : ElfFile) (target : Option Nat)
    (rels : RelEntries) (rep : Bool) (lo : Option Nat) :
    (addRelocationsSt f target rels rep lo).1 ≠ some ElfErr.symbolNotFound := by
  unfold addRelocationsSt
  cases hv : addRelocValidate f target rels lo with
  | error e =>
      intro hc
      simp only at hc
      injection hc with hc
      subst hc
      rcases addRelocValidate_error_kinds f target rels lo _ hv with h | h | h | h <;> cases h
  | ok plan =>
      intro hc
      dsimp only at hc
      cases hcm : addRelocCommit f plan rep with
      | mk oe f2 =>
          rw [hcm] at hc
          simp only at hc
          subst hc
          rcases addRelocCommit_error_kinds f plan rep _ _ hcm with h | h | h <;> cases h

theorem not_mem_of_findIdx_beq_none (l : List String) (a : String)
    (h : l.findIdx? (fun n => n == a) = none) : a ∉ l := by
  intro hm
  rw [List.findIdx?_eq_none_iff] at h
  exact absurd (h a hm) (by simp)

theorem findIdx_beq_none_of_not_mem (l : List String) (a : String) (h : a ∉ l) :
    l.findIdx? (fun n => n == a) = none := by
  rw [List.findIdx?_eq_none_iff]
  intro x hx
  simp only [beq_eq_false_iff_ne]
  intro he; subst he; exact h hx

theorem symbolIndexByName_none_iff (f : ElfFile) (name : String) :
    symbolIndexByName f name = none ↔
      ((sectionIndexByName f ".symtab" = none ∨ name ∉ f.symNames) ∧
       (sectionIndexByName f ".dynsym" = none ∨ name ∉ f.dynNames)) := by
  unfold symbolIndexByName
  cases hst : sectionIndexByName f ".symtab" with
  | none =>
      dsimp only
      cases hdy : sectionIndexByName f ".dynsym" with
      | none => simp
      | some di =>
          dsimp only
          rw [Option.map_eq_none']
          constructor
          · intro h
            exact ⟨Or.inl rfl, Or.inr (not_mem_of_findIdx_beq_none _ _ h)⟩
          · intro hR
            rcases hR.2 with h | h
            · cases h
            · exact findIdx_beq_none_of_not_mem _ _ h
  | some si =>
      cases hfi : f.symNames.findIdx? (fun n => n == name) with
      | some i =>
          dsimp only
          constructor
          · intro hc; cases hc
          · rintro ⟨h1, -⟩
            rcases h1 with h | h
            · cases h
            · rw [findIdx_beq_none_of_not_mem _ _ h] at hfi; cases hfi
      | none =>
          dsimp only
          cases hdy : sectionIndexByName f ".dynsym" with
          | none =>
              dsimp only
              constructor
              · intro _
                exact ⟨Or.inr (not_mem_of_findIdx_beq_none _ _ hfi), Or.inl rfl⟩
              · intro _; rfl
          | some di =>
              simp only [Option.map_none']
              rw [Option.map_eq_none']
              constructor
              · intro h
                exact ⟨Or.inr (not_mem_of_findIdx_beq_none _ _ hfi),
                       Or.inr (not_mem_of_findIdx_beq_none _ _ h)⟩
              · intro hR
                rcases hR.2 with h | h
                · cases h
                · exact findIdx_beq_none_of_not_mem _ _ h

theorem addRelocationEntry_no_symbolNotFound (f : ElfFile) (target : Option Nat)
    (symIndex : Nat) (stIdx : Option Nat) (off rt : Nat) (ad : Option Int) :
    (addRelocationEntry f target symIndex stIdx off rt ad).1 ≠ some ElfErr.symbolNotFound := by
  unfold addRelocationEntry
  repeat' split
  all_goals first
    | exact addRelocationsSt_no_symbolNotFound _ _ _ _ _
    | simp

/-- C7: counterexample to "the call returns a symbol-not-found error exactly
when the name is in neither table" — on a file where the named target section
is absent, `AddRelocationForSymbol` returns the section-not-found error even
though the symbol name is in neither `.symtab` nor `.dynsym`, because the
target section is resolved before the symbol. -/
theorem elf_addRelocationForSymbol_section_missing_error :
    (addRelocationForSymbol exC7File ".text" "f" 0 1 none).1 = some ElfErr.sectionNotFound ∧
    "f" ∉ exC7File.symNames ∧ "f" ∉ exC7File.dynNames := by
  refine ⟨rfl, ?_, ?_⟩ <;> simp [exC7File]

/-- C7 (amended): provided the named target section exists,
`AddRelocationForSymbol` resolves the symbol by name against `.symtab` first
and against `.dynsym` only when `.symtab` is absent or lacks the name, it
returns the symbol-not-found error exactly when the name is in neither table,
and on success some section of the file holds the appended entry: a REL
section when the addend argument is nil, a RELA section otherwise, with its
`Info` naming the target. -/
theorem elf_addRelocationForSymbol_resolution (f : ElfFile) (secName symName : String)
    (off rt ti : Nat) (ad : Option Int)
    (hsec : sectionIndexByName f secName = some ti) :
    ((addRelocationForSymbol f secName symName off rt ad).1 = some ElfErr.symbolNotFound ↔
      ((sectionIndexByName f ".symtab" = none ∨ symName ∉ f.symNames) ∧
       (sectionIndexByName f ".dynsym" = none ∨ symName ∉ f.dynNames))) ∧
    (∀ si i, sectionIndexByName f ".symtab" = some si →
       f.symNames.findIdx? (fun n => n == symName) = some i →
       symbolIndexByName f symName = some (i + 1, si)) ∧
    (∀ di i, (sectionIndexByName f ".symtab" = none ∨
        f.symNames.findIdx? (fun n => n == symName) = none) →
       sectionIndexByName f ".dynsym" = some di →
       f.dynNames.findIdx? (fun n => n == symName) = some i →
       symbolIndexByName f symName = some (i + 1, di)) ∧
    (∀ f', addRelocationForSymbol f secName symName off rt ad = (none, f') →
       ∃ j, j < f'.sections.length ∧
         (f'.sections.getD j default).secType =
           (if ad = none then SHT_REL else SHT_RELA) ∧
         (f'.sections.getD j default).info = ti) := by
  refine ⟨?_, ?_, ?_, ?_⟩
  · unfold addRelocationForSymbol
    rw [hsec]
    dsimp only
    cases hsym : symbolIndexByName f symName with
    | none =>
        dsimp only
        constructor
        · intro _; exact (symbolIndexByName_none_iff f symName).mp hsym
        · intro _; rfl
    | some r =>
        dsimp only
        constructor
        · intro hc
          exact absurd hc
            (addRelocationEntry_no_symbolNotFound f (some ti) r.1 (some r.2) off rt ad)
        · intro hR
          rw [(symbolIndexByName_none_iff f symName).mpr hR] at hsym
          cases hsym
  · intro si i h1 h2
    unfold symbolIndexByName
    rw [h1, h2]
    rfl
  · intro di i h0 h1 h2
    unfold symbolIndexByName
    cases hst : sectionIndexByName f ".symtab" with
    | none =>
        rw [h1, h2]
        rfl
    | some si =>
        rcases h0 with h0 | h0
        · rw [hst] at h0; cases h0
        · rw [h0, h1, h2]
          rfl
  · intro f' hsucc
    unfold addRelocationForSymbol at hsucc
    rw [hsec] at hsucc
    dsimp only at hsucc
    cases hsym : symbolIndexByName f symName with
    | none =>
        rw [hsym] at hsucc
        dsimp only at hsucc
        rw [Prod.mk.injEq] at hsucc
        cases hsucc.1
    | some r =>
        rw [hsym] at hsucc
        dsimp only at hsucc
        unfold addRelocationEntry at hsucc
        cases ad with
        | none =>
            dsimp only at hsucc
            split at hsucc
            · split at hsucc
              · rw [Prod.mk.injEq] at hsucc; cases hsucc.1
              · obtain ⟨j, hj1, hj2, hj3⟩ :=
                  addRelocationsSt_success_post f ti _ false (some r.2) f' hsucc
                exact ⟨j, hj1, hj2.trans rfl, hj3⟩
            · split at hsucc
              · obtain ⟨j, hj1, hj2, hj3⟩ :=
                  addRelocationsSt_success_post f ti _ false (some r.2) f' hsucc
                exact ⟨j, hj1, hj2.trans rfl, hj3⟩
              · rw [Prod.mk.injEq] at hsucc; cases hsucc.1
        | some a =>
            dsimp only at hsucc
            split at hsucc
            · split at hsucc
              · rw [Prod.mk.injEq] at hsucc; cases hsucc.1
              · split at hsucc
                · rw [Prod.mk.injEq] at hsucc; cases hsucc.1
                · obtain ⟨j, hj1, hj2, hj3⟩ :=
                    addRelocationsSt_success_post f ti _ false (some r.2) f' hsucc
                  exact ⟨j, hj1, hj2.trans rfl, hj3⟩
            · split at hsucc
              · obtain ⟨j, hj1, hj2, hj3⟩ :=
                  addRelocationsSt_success_post f ti _ false (some r.2) f' hsucc
                exact ⟨j, hj1, hj2.trans rfl, hj3⟩
              · rw [Prod.mk.injEq] at hsucc; cases hsucc.1

/-- C7 witness: on a concrete file with a `.text` section and a `.symtab`
holding the single symbol `f`, asking for the unknown symbol `g` yields the
symbol-not-found error, and `f` resolves to symbol index 1 in the `.symtab`
section (index 2). -/
theorem elf_addRelocationForSymbol_resolution_witness :
    (addRelocationForSymbol exC7WFile ".text" "g" 0 1 none).1 = some ElfErr.symbolNotFound ∧
    symbolIndexByName exC7WFile "f" = some (1, 2) :=
  ⟨(elf_addRelocationForSymbol_resolution exC7WFile ".text" "g" 0 1 1 none rfl).1.mpr
      ⟨Or.inr (by decide), Or.inl rfl⟩,
   (elf_addRelocationForSymbol_resolution exC7WFile ".text" "f" 0 1 1 none rfl).2.1 2 0 rfl rfl⟩

theorem setLimit_zero_iff (acc x : Nat) : setLimit acc x = 0 ↔ acc = 0 ∧ x = 0 := by
  unfold setLimit
  split
  · omega
  · split <;> omega

theorem setLimit_eq_or (acc x : Nat) : setLimit acc x = acc ∨ setLimit acc x = x := by
  unfold setLimit
  split
  · omega
  · split <;> omega

theorem setLimit_le_left (acc x : Nat) (h : acc ≠ 0) : setLimit acc x ≤ acc := by
  unfold setLimit
  split
  · omega
  · split <;> omega

theorem setLimit_le_right (acc x : Nat) (h : x ≠ 0) : setLimit acc x ≤ x := by
  unfold setLimit
  split
  · omega
  · split <;> omega

theorem foldl_setLimit_char (l : List Nat) (acc : Nat) :
    (l.foldl setLimit acc = 0 → acc = 0 ∧ ∀ v ∈ l, v = 0) ∧
    (l.foldl setLimit acc ≠ 0 →
      (l.foldl setLimit acc = acc ∨ l.foldl setLimit acc ∈ l) ∧
      (acc ≠ 0 → l.foldl setLimit acc ≤ acc) ∧
      (∀ v ∈ l, v ≠ 0 → l.foldl setLimit acc ≤ v)) := by
  induction l generalizing acc with
  | nil => simp
  | cons x xs ih =>
      simp only [List.foldl_cons]
      have ihx := ih (setLimit acc x)
      constructor
      · intro h0
        obtain ⟨hsl, hall⟩ := ihx.1 h0
        have hax := (setLimit_zero_iff acc x).mp hsl
        refine ⟨hax.1, ?_⟩
        intro v hv
        rcases List.mem_cons.mp hv with rfl | hm
        · exact hax.2
        · exact hall v hm
      · intro hne
        obtain ⟨hmem, hle_acc, hle⟩ := ihx.2 hne
        refine ⟨?_, ?_, ?_⟩
        · rcases hmem with he | hm
          · rcases setLimit_eq_or acc x with h | h
            · exact Or.inl (he.trans h)
            · exact Or.inr (by rw [he, h]; exact List.mem_cons_self x xs)
          · exact Or.inr (List.mem_cons_of_mem x hm)
        · intro hacc
          have h2 : setLimit acc x ≠ 0 := by
            rw [Ne, setLimit_zero_iff]
            omega
          exact le_trans (hle_acc h2) (setLimit_le_left acc x hacc)
        · intro v hv hvne
          rcases List.mem_cons.mp hv with rfl | hm
          · have h2 : setLimit acc v ≠ 0 := by
              rw [Ne, setLimit_zero_iff]
              omega
            exact le_trans (hle_acc h2) (setLimit_le_right acc v hvne)
          · exact hle v hm hvne

theorem dyldInfoEndLimit_eq_foldl (f : MachoFile) :
    dyldInfoEndLimit f = (dyldLimitCandidates f).foldl setLimit 0 := by
  unfold dyldInfoEndLimit dyldLimitCandidates
  cases f.funcStarts <;> cases f.dataInCode <;> cases f.symtab <;> cases f.dysymtab <;>
    cases f.sigBlock <;> cases f.dylinkInfo <;> rfl

theorem dyldRelocStep_len (f : MachoFile) (s : MachoSection) (seg : Nat) (st : DyldEncSt)
    (rel : MachoReloc) (st' : DyldEncSt) (h : dyldRelocStep f s seg st rel = .ok st') :
    st.rebase.length ≤ st'.rebase.length ∧ st.bind.length ≤ st'.bind.length ∧
    st.weak.length ≤ st'.weak.length ∧ st.lazy.length ≤ st'.lazy.length := by
  unfold dyldRelocStep at h
  dsimp only at h
  repeat' split at h
  all_goals cases h
  all_goals refine ⟨?_, ?_, ?_, ?_⟩ <;> simp

theorem dyldRelocFold_len (f : MachoFile) (s : MachoSection) (seg : Nat) :
    ∀ (rels : List MachoReloc) (st st' : DyldEncSt),
      dyldRelocFold f s seg rels st = .ok st' →
      st.rebase.length ≤ st'.rebase.length ∧ st.bind.length ≤ st'.bind.length ∧
      st.weak.length ≤ st'.weak.length ∧ st.lazy.length ≤ st'.lazy.length := by
  intro rels
  induction rels with
  | nil =>
      intro st st' h
      unfold dyldRelocFold at h
      cases h
      exact ⟨Nat.le_refl _, Nat.le_refl _, Nat.le_refl _, Nat.le_refl _⟩
  | cons rel rest ih =>
      intro st st' h
      unfold dyldRelocFold at h
      cases hstep : dyldRelocStep f s seg st rel with
      | error e => rw [hstep] at h; cases h
      | ok st1 =>
          rw [hstep] at h
          dsimp only at h
          have h1 := dyldRelocStep_len f s seg st rel st1 hstep
          have h2 := ih st1 st' h
          exact ⟨le_trans h1.1 h2.1, le_trans h1.2.1 h2.2.1,
                 le_trans h1.2.2.1 h2.2.2.1, le_trans h1.2.2.2 h2.2.2.2⟩

theorem dyldSectionFold_len (f : MachoFile) :
    ∀ (ss : List MachoSection) (st st' : DyldEncSt),
      dyldSectionFold f ss st = .ok st' →
      st.rebase.length ≤ st'.rebase.length ∧ st.bind.length ≤ st'.bind.length ∧
      st.weak.length ≤ st'.weak.length ∧ st.lazy.length ≤ st'.lazy.length := by
  intro ss
  induction ss with
  | nil =>
      intro st st' h
      unfold dyldSectionFold at h
      cases h
      exact ⟨Nat.le_refl _, Nat.le_refl _, Nat.le_refl _, Nat.le_refl _⟩
  | cons s rest ih =>
      intro st st' h
      unfold dyldSectionFold at h
      split at h
      · exact ih st st' h
      · cases hso : segOrdinal f.loads s.seg with
        | none => rw [hso] at h; cases h
        | some o =>
            rw [hso] at h
            dsimp only at h
            cases hrf : dyldRelocFold f s (o &&& 0xf) s.relocs st with
            | error e => rw [hrf] at h; cases h
            | ok st1 =>
                rw [hrf] at h
                dsimp only at h
                have h1 := dyldRelocFold_len f s (o &&& 0xf) s.relocs st st1 hrf
                have h2 := ih st1 st' h
                exact ⟨le_trans h1.1 h2.1, le_trans h1.2.1 h2.2.1,
                       le_trans h1.2.2.1 h2.2.2.1, le_trans h1.2.2.2 h2.2.2.2⟩

theorem refreshDylinkLoads_ok (le : Bool) (d : DylinkInfo) (loads : List MachoLoad)
    (h : hasShortDylinkCmd le loads = false) :
    ∃ loads1, refreshDylinkLoads le d loads = .ok loads1 := by
  induction loads with
  | nil => exact ⟨[], rfl⟩
  | cons x rest ih =>
      cases x with
      | segment n a =>
          unfold hasShortDylinkCmd at h
          obtain ⟨ls, hls⟩ := ih h
          exact ⟨.segment n a :: ls, by unfold refreshDylinkLoads; rw [hls]; rfl⟩
      | otherLoad =>
          unfold hasShortDylinkCmd at h
          obtain ⟨ls, hls⟩ := ih h
          exact ⟨.otherLoad :: ls, by unfold refreshDylinkLoads; rw [hls]; rfl⟩
      | loadBytes raw =>
          unfold hasShortDylinkCmd at h
          unfold refreshDylinkLoads
          by_cases h8 : raw.length < 8
          · rw [if_pos h8] at h ⊢
            obtain ⟨ls, hls⟩ := ih h
            exact ⟨.loadBytes raw :: ls, by rw [hls]; rfl⟩
          · rw [if_neg h8] at h ⊢
            by_cases hc : readU32At le raw 0 ≠ LoadCmdDylinkInfo
            · rw [if_pos hc] at h ⊢
              obtain ⟨ls, hls⟩ := ih h
              exact ⟨.loadBytes raw :: ls, by rw [hls]; rfl⟩
            · rw [if_neg hc] at h ⊢
              have h48 : ¬ raw.length < 48 := by simpa using h
              rw [if_neg h48]
              exact ⟨_, rfl⟩

/-- C5: counterexample to "a bind stream with no bind entries is not
DONE-terminated" — on a file with one segment and no relocations at all,
every bind-type stream is exactly its two-byte prologue, yet each is
DONE-terminated, because the prologue is two bytes (`SET_TYPE_IMM` then
`SET_DYLIB_ORDINAL_IMM`) while the source's appending condition is
`Len() > 1`. -/
theorem macho_dyld_empty_bind_stream_done_terminated :
    encodeDyldInfoFromRelocs exC5File =
      .ok ([0x11, 0], [0x51, 0x10, 0], [0x51, 0x10, 0], [0x51, 0x10, 0]) ∧
    (∀ s ∈ exC5File.sections, s.relocs = []) := by
  refine ⟨rfl, ?_⟩
  intro s hs
  simp [exC5File] at hs

/-- C5 (amended): whenever `encodeDyldInfoFromRelocs` generates streams
(i.e. at least one segment exists), ALL four streams are DONE-terminated:
rebase unconditionally, and each bind-type stream because it always holds
at least its two-byte prologue, which already satisfies the source's
`Len() > 1` test — a bind stream with no bind entries is still
DONE-terminated. -/
theorem macho_dyld_streams_always_done (f : MachoFile) (r b w l : List Nat)
    (hseg : (segmentList f.loads).isEmpty = false)
    (h : encodeDyldInfoFromRelocs f = .ok (r, b, w, l)) :
    r.getLast? = some 0 ∧ b.getLast? = some 0 ∧
    w.getLast? = some 0 ∧ l.getLast? = some 0 := by
  unfold encodeDyldInfoFromRelocs at h
  split at h
  · rename_i hc
    rw [hseg] at hc
    cases hc
  · cases hfold : dyldSectionFold f f.sections dyldInitSt with
    | error e => rw [hfold] at h; cases h
    | ok st =>
        rw [hfold] at h
        dsimp only at h
        injection h with h
        injection h with h1 h
        injection h with h2 h
        injection h with h3 h4
        subst h1; subst h2; subst h3; subst h4
        have hm := dyldSectionFold_len f f.sections dyldInitSt st hfold
        have hb : st.bind.length > 1 := by
          have := hm.2.1
          simp [dyldInitSt] at this
          omega
        have hw : st.weak.length > 1 := by
          have := hm.2.2.1
          simp [dyldInitSt] at this
          omega
        have hl : st.lazy.length > 1 := by
          have := hm.2.2.2
          simp [dyldInitSt] at this
          omega
        refine ⟨List.getLast?_concat _, ?_, ?_, ?_⟩
        · rw [if_pos hb]; exact List.getLast?_concat _
        · rw [if_pos hw]; exact List.getLast?_concat _
        · rw [if_pos hl]; exact List.getLast?_concat _

/-- C5 witness: the amended theorem applied to the concrete no-reloc
file: all four generated streams end in the DONE byte. -/
theorem macho_dyld_streams_always_done_witness :
    ([0x11, 0] : List Nat).getLast? = some 0 ∧
    ([0x51, 0x10, 0] : List Nat).getLast? = some 0 ∧
    ([0x51, 0x10, 0] : List Nat).getLast? = some 0 ∧
    ([0x51, 0x10, 0] : List Nat).getLast? = some 0 :=
  macho_dyld_streams_always_done exC5File [0x11, 0] [0x51, 0x10, 0] [0x51, 0x10, 0]
    [0x51, 0x10, 0] rfl rfl

/-- C4: when dyld info is regenerated (dylink info present, the opcode
streams encode successfully and are not all empty, and the raw
`LC_DYLD_INFO` load command is well-formed), the four streams are laid
out contiguously in the order rebase, bind, weak-bind, lazy-bind starting
at `align(max section end, 4)`; the operation fails with the model left
unchanged exactly when that start plus the total stream length passes the
end limit; and the end limit is precisely the smallest nonzero offset
among the FuncStarts/DataInCode/Symtab/Dysymtab/SigBlock offsets and the
pre-existing lazy-binding, weak-binding and export-info placements
(zero when no nonzero candidate exists). -/
theorem macho_dyld_info_placement (f : MachoFile) (d : DylinkInfo) (r b w l : List Nat)
    (hd : f.dylinkInfo = some d)
    (henc : encodeDyldInfoFromRelocs f = .ok (r, b, w, l))
    (hne : ¬(r.isEmpty ∧ b.isEmpty ∧ w.isEmpty ∧ l.isEmpty))
    (hok : hasShortDylinkCmd f.littleEndian f.loads = false) :
    ((dyldInfoEndLimit f = 0 → ∀ v ∈ dyldLimitCandidates f, v = 0) ∧
     (dyldInfoEndLimit f ≠ 0 → dyldInfoEndLimit f ∈ dyldLimitCandidates f ∧
        ∀ v ∈ dyldLimitCandidates f, v ≠ 0 → dyldInfoEndLimit f ≤ v)) ∧
    ((prepareDyldInfoFromRelocs f).1.isSome ↔
      dyldInfoEndLimit f ≠ 0 ∧
        alignUp64 (endOfSections f) 4 + (r.length + b.length + w.length + l.length) >
          dyldInfoEndLimit f) ∧
    ((prepareDyldInfoFromRelocs f).1.isSome → (prepareDyldInfoFromRelocs f).2 = f) ∧
    ((prepareDyldInfoFromRelocs f).1 = none →
      ∃ d1, (prepareDyldInfoFromRelocs f).2.dylinkInfo = some d1 ∧
        d1.rebaseOffset = alignUp64 (endOfSections f) 4 ∧ d1.rebaseDat = r ∧
        d1.bindingInfoOffset = alignUp64 (endOfSections f) 4 + r.length ∧
        d1.bindingInfoDat = b ∧
        d1.weakBindingOffset = alignUp64 (endOfSections f) 4 + r.length + b.length ∧
        d1.weakBindingDat = w ∧
        d1.lazyBindingOffset = alignUp64 (endOfSections f) 4 + r.length + b.length + w.length ∧
        d1.lazyBindingDat = l) := by
  have hbridge := dyldInfoEndLimit_eq_foldl f
  have hchar := foldl_setLimit_char (dyldLimitCandidates f) 0
  refine ⟨⟨?_, ?_⟩, ?_⟩
  · intro h0
    exact (hchar.1 (hbridge ▸ h0)).2
  · intro hne0
    have h2 := hchar.2 (by rw [← hbridge]; exact hne0)
    refine ⟨?_, ?_⟩
    · rcases h2.1 with he | hm
      · exact absurd (hbridge.trans he) hne0
      · exact hbridge ▸ hm
    · intro v hv hvne
      rw [hbridge]
      exact h2.2.2 v hv hvne
  · unfold prepareDyldInfoFromRelocs
    rw [hd, henc]
    dsimp only
    rw [if_neg hne]
    split
    · rename_i hcond
      exact ⟨⟨fun _ => hcond, fun _ => rfl⟩, fun _ => rfl, fun hcc => Option.noConfusion hcc⟩
    · rename_i hcond
      obtain ⟨loads1, hloads⟩ :=
        refreshDylinkLoads_ok f.littleEndian
          (dyldCommitInfo d (alignUp64 (endOfSections f) 4) r b w l) f.loads hok
      rw [show refreshDylinkInfoLoadBytes
            (dyldCommitFile f d (alignUp64 (endOfSections f) 4) r b w l) =
            Except.ok
              { dyldCommitFile f d (alignUp64 (endOfSections f) 4) r b w l with
                loads := loads1 }
          from by unfold refreshDylinkInfoLoadBytes dyldCommitFile; dsimp only; rw [hloads]]
      refine ⟨⟨fun hf => absurd hf (by simp), fun hc => absurd hc hcond⟩,
              fun hf => absurd hf (by simp), fun _ => ?_⟩
      exact ⟨_, rfl, rfl, rfl, rfl, rfl, rfl, rfl, rfl, rfl⟩

/-- C4 witness: on a concrete file with one segment, an empty dylink-info
block and no limit candidates, the preparation succeeds and commits the
contiguous placement 0, 2, 5, 8 for the four streams. -/
theorem macho_dyld_info_placement_witness :
    (prepareDyldInfoFromRelocs exC4File).1 = none ∧
    ∃ d1, (prepareDyldInfoFromRelocs exC4File).2.dylinkInfo = some d1 ∧
      d1.rebaseOffset = 0 ∧ d1.bindingInfoOffset = 2 ∧
      d1.weakBindingOffset = 5 ∧ d1.lazyBindingOffset = 8 := by
  have h := macho_dyld_info_placement exC4File exC4Dylink [0x11, 0] [0x51, 0x10, 0]
    [0x51, 0x10, 0] [0x51, 0x10, 0] rfl rfl (by decide) rfl
  obtain ⟨d1, hd1, hro, hrd, hbo, hbd, hwo, hwd, hlo, hld⟩ := h.2.2.2 rfl
  exact ⟨rfl, d1, hd1, hro.trans rfl, hbo.trans rfl, hwo.trans rfl, hlo.trans rfl⟩

theorem baseRelocEntryBytes_eq_spec (e : BaseRelocBlock) :
    baseRelocEntryBytes e = baseRelocBlockBytesSpec e := by
  unfold baseRelocEntryBytes baseRelocBlockBytesSpec paddedItems
  dsimp only
  have h2 : ∀ n : Nat, 8 + n * 2 = 8 + 2 * n := fun n => by omega
  by_cases hpar : e.blockItems.length % 2 = 1
  · rw [if_pos (by omega), if_pos hpar, h2]
  · rw [if_neg (by omega), if_neg hpar, h2]

theorem foldl_buf_append {α : Type _} (g : α → List Nat) :
    ∀ (l : List α) (init : List Nat),
      l.foldl (fun buf e => buf ++ g e) init = init ++ l.flatMap g := by
  intro l
  induction l with
  | nil => intro init; simp
  | cons x xs ih => intro init; simp [ih]

/-- C8: the serialized PE base-relocation data is the concatenation, in
table order, of blocks made of the u32 page VA, the u32 size-of-block,
and one little-endian u16 per entry packed as `(type<<12)|(offset&0xfff)`;
a block with an odd entry count gets exactly one extra
`IMAGE_REL_BASED_ABSOLUTE` entry, every emitted block has an even entry
count, and size-of-block is 8 plus 2 times the padded count. -/
theorem pe_base_reloc_wire_format (table : List BaseRelocBlock) :
    buildBaseRelocationData (some table) = baseRelocDataSpec table ∧
    buildBaseRelocationData none = [] ∧
    ∀ entry ∈ table, (paddedItems entry).length % 2 = 0 := by
  refine ⟨?_, rfl, ?_⟩
  · have hcong : ∀ t : List BaseRelocBlock,
        t.flatMap baseRelocEntryBytes = t.flatMap baseRelocBlockBytesSpec := by
      intro t
      induction t with
      | nil => rfl
      | cons e r ih => simp only [List.flatMap_cons, ih, baseRelocEntryBytes_eq_spec]
    unfold buildBaseRelocationData baseRelocDataSpec
    dsimp only
    rw [foldl_buf_append, List.nil_append, hcong]
  · intro entry hmem
    unfold paddedItems
    by_cases hpar : entry.blockItems.length % 2 = 1
    · rw [if_pos hpar]
      simp only [List.length_append, List.length_cons, List.length_nil]
      omega
    · rw [if_neg hpar]
      omega

/-- C8 witness: the wire-format equality and the evenness of the padded
count, instantiated on a one-item (odd) block. -/
theorem pe_base_reloc_wire_format_witness :
    buildBaseRelocationData (some [exC8Block]) = baseRelocDataSpec [exC8Block] ∧
    (paddedItems exC8Block).length % 2 = 0 :=
  ⟨(pe_base_reloc_wire_format [exC8Block]).1,
   (pe_base_reloc_wire_format [exC8Block]).2.2 exC8Block (List.mem_cons_self _ _)⟩

theorem coffWalk_preserves (start : Nat) :
    ∀ (ss : List PESection) (offset : Nat) (buf b2 : List Nat) (o2 : Nat)
      (ss2 : List PESection),
      coffWalk start ss offset buf = .ok (b2, o2, ss2) →
      ss2.length = ss.length ∧
      ∀ j, (ss2.getD j default).name = (ss.getD j default).name ∧
           (ss2.getD j default).virtualAddress = (ss.getD j default).virtualAddress := by
  intro ss
  induction ss with
  | nil =>
      intro offset buf b2 o2 ss2 h
      unfold coffWalk at h
      cases h
      exact ⟨rfl, fun j => ⟨rfl, rfl⟩⟩
  | cons s rest ih =>
      intro offset buf b2 o2 ss2 h
      unfold coffWalk at h
      split at h
      · split at h
        · cases h
        · rename_i buf1 off1 rest1 heq
          cases h
          obtain ⟨hlen, hfields⟩ := ih _ _ _ _ _ heq
          refine ⟨by simp [hlen], ?_⟩
          intro j
          cases j with
          | zero => exact ⟨rfl, rfl⟩
          | succ j => simpa using hfields j
      · split at h
        · cases h
        · dsimp only at h
          split at h
          · cases h
          · rename_i buf2 off2 rest2 heq
            cases h
            obtain ⟨hlen, hfields⟩ := ih _ _ _ _ _ heq
            refine ⟨by simp [hlen], ?_⟩
            intro j
            cases j with
            | zero => exact ⟨rfl, rfl⟩
            | succ j => simpa using hfields j

theorem buildCOFF_preserves (start0 fileAlign : Nat) (sections : List PESection)
    (data : List Nat) (start1 : Nat) (sections2 : List PESection)
    (h : buildCOFFRelocationData start0 fileAlign sections = .ok (data, start1, sections2)) :
    sections2.length = sections.length ∧
    ∀ j, (sections2.getD j default).name = (sections.getD j default).name ∧
         (sections2.getD j default).virtualAddress =
           (sections.getD j default).virtualAddress := by
  unfold buildCOFFRelocationData at h
  dsimp only at h
  split at h
  · cases h
  · rename_i buf off secs heq
    cases h
    exact coffWalk_preserves _ _ _ _ _ _ _ heq

theorem peApplyBaseReloc_zero (f : PEFile) (oh : PEOptHeader)
    (hz : (buildBaseRelocationData f.baseRelocationTable).length = 0) :
    (peApplyBaseReloc f oh).sections = f.sections ∧
    (peApplyBaseReloc f oh).dataDirectory =
      oh.dataDirectory.set IMAGE_DIRECTORY_ENTRY_BASERELOC
        { virtualAddress := 0, size := 0 } ∧
    (peApplyBaseReloc f oh).characteristics = f.characteristics := by
  unfold peApplyBaseReloc
  dsimp only
  rw [if_neg (by omega)]
  exact ⟨rfl, rfl, rfl⟩

theorem peApplyBaseReloc_pos (f : PEFile) (oh : PEOptHeader)
    (hpos : 0 < (buildBaseRelocationData f.baseRelocationTable).length) :
    ∃ idx s1, idx < (peApplyBaseReloc f oh).sections.length ∧
      (peApplyBaseReloc f oh).sections.getD idx default = s1 ∧
      s1.name = ".reloc" ∧
      (peApplyBaseReloc f oh).dataDirectory =
        oh.dataDirectory.set IMAGE_DIRECTORY_ENTRY_BASERELOC
          { virtualAddress := s1.virtualAddress,
            size := (buildBaseRelocationData f.baseRelocationTable).length % 2 ^ 32 } ∧
      (peApplyBaseReloc f oh).characteristics = f.characteristics &&& 0xfffe := by
  unfold peApplyBaseReloc
  dsimp only
  rw [if_pos hpos]
  cases hidx : f.sections.findIdx? (fun s => s.name == ".reloc") with
  | some i =>
      dsimp only
      obtain ⟨hlt, hp, -⟩ := List.findIdx?_eq_some_iff_getElem.mp hidx
      have hgd : f.sections.getD i default = f.sections.get ⟨i, hlt⟩ := by
        rw [List.getD_eq_getElem?_getD, List.getElem?_eq_getElem hlt]
        rfl
      refine ⟨i, _, ?_, ?_, ?_, rfl, rfl⟩
      · simp only [List.length_set]
        exact hlt
      · exact getD_set_eq _ _ _ _ hlt
      · show (f.sections.getD i default).name = ".reloc"
        rw [hgd]
        simpa [beq_iff_eq] using hp
  | none =>
      dsimp only
      refine ⟨f.sections.length, _, ?_, ?_, ?_, rfl, rfl⟩
      · simp only [List.length_set, List.length_append, List.length_cons, List.length_nil]
        omega
      · exact getD_set_eq _ _ _ _ (by simp)
      · show ((f.sections ++ [peNewRelocSection]).getD f.sections.length default).name = ".reloc"
        rw [getD_append_length]
        rfl

/-- C9: after a successful relocation layout, the optional header's
BASERELOC data-directory entry is the zero directory exactly when the
built base-relocation data is empty; otherwise it carries the `.reloc`
section's virtual address and the unpadded data length as its size, and
the `IMAGE_FILE_RELOCS_STRIPPED` bit of the file header characteristics
is cleared.  (The directory array is modelled as a list, whence the
length premise; the data length is below 2^32 for any file a parser can
produce.) -/
theorem pe_basereloc_directory_invariant (f : PEFile) (oh : PEOptHeader)
    (res : List Nat × Nat) (f' : PEFile)
    (hoh : f.optionalHeader = some oh)
    (hdir : IMAGE_DIRECTORY_ENTRY_BASERELOC < oh.dataDirectory.length)
    (hlen : (buildBaseRelocationData f.baseRelocationTable).length < 2 ^ 32)
    (h : prepareRelocationLayout f = .ok (res, f')) :
    ∃ oh', f'.optionalHeader = some oh' ∧
      (oh'.dataDirectory.getD IMAGE_DIRECTORY_ENTRY_BASERELOC default =
          { virtualAddress := 0, size := 0 } ↔
        buildBaseRelocationData f.baseRelocationTable = []) ∧
      (buildBaseRelocationData f.baseRelocationTable ≠ [] →
        ∃ j, j < f'.sections.length ∧ (f'.sections.getD j default).name = ".reloc" ∧
          oh'.dataDirectory.getD IMAGE_DIRECTORY_ENTRY_BASERELOC default =
            { virtualAddress := (f'.sections.getD j default).virtualAddress,
              size := (buildBaseRelocationData f.baseRelocationTable).length } ∧
          f'.characteristics &&& IMAGE_FILE_RELOCS_STRIPPED = 0) := by
  unfold prepareRelocationLayout at h
  rw [hoh] at h
  dsimp only at h
  split at h
  · cases h
  · rename_i coffData coffStart sections2 heq
    cases h
    have hpres := buildCOFF_preserves _ _ _ _ _ _ heq
    by_cases hz : buildBaseRelocationData f.baseRelocationTable = []
    · obtain ⟨hsec, hdd, hchar⟩ := peApplyBaseReloc_zero f oh (by rw [hz]; rfl)
      refine ⟨_, rfl, ?_, fun hne => absurd hz hne⟩
      dsimp only
      rw [hdd, getD_set_eq _ _ _ _ hdir]
      simp [hz]
    · have hpos : 0 < (buildBaseRelocationData f.baseRelocationTable).length :=
        List.length_pos.mpr hz
      obtain ⟨idx, s1, hlt, hgetD, hname, hdd, hchar⟩ := peApplyBaseReloc_pos f oh hpos
      refine ⟨_, rfl, ?_, fun _ => ?_⟩
      · dsimp only
        rw [hdd, getD_set_eq _ _ _ _ hdir]
        constructor
        · intro h0
          have hsz := congrArg PEDataDir.size h0
          dsimp only at hsz
          rw [Nat.mod_eq_of_lt hlen] at hsz
          omega
        · intro h0
          exact absurd h0 hz
      · refine ⟨idx, ?_, ?_, ?_, ?_⟩
        · dsimp only
          rw [hpres.1]
          exact hlt
        · dsimp only
          rw [(hpres.2 idx).1, hgetD]
          exact hname
        · dsimp only
          rw [hdd, getD_set_eq _ _ _ _ hdir, (hpres.2 idx).2, hgetD,
              Nat.mod_eq_of_lt hlen]
        · dsimp only
          rw [hchar]
          have := Nat.and_assoc f.characteristics 0xfffe 1
          rw [show IMAGE_FILE_RELOCS_STRIPPED = 1 from rfl, this]
          simp

/-- C9 witness: on a concrete file with one base-relocation block (12
data bytes) the layout succeeds, the BASERELOC directory's size is the
unpadded length 12, and the relocs-stripped bit (set to 1 in the input
characteristics 0x0103) comes out cleared. -/
theorem pe_basereloc_directory_invariant_witness :
    ((prepareRelocationLayout exC9File).toOption.map
        (fun p => ((p.2.optionalHeader.getD default).dataDirectory.getD
          IMAGE_DIRECTORY_ENTRY_BASERELOC default).size)).getD 99 = 12 ∧
    ((prepareRelocationLayout exC9File).toOption.map
        (fun p => p.2.characteristics &&& IMAGE_FILE_RELOCS_STRIPPED)).getD 99 = 0 := by
  cases hp : prepareRelocationLayout exC9File with
  | error e =>
      have hok : (prepareRelocationLayout exC9File).toOption.isSome = true := rfl
      rw [hp] at hok
      simp [Except.toOption] at hok
  | ok val =>
      obtain ⟨res, f1⟩ := val
      obtain ⟨oh', hoh', hiff, hne⟩ :=
        pe_basereloc_directory_invariant exC9File exC9Oh res f1 rfl (by decide)
          (by decide) hp
      obtain ⟨j, hj, hname, hdir5, hchar⟩ := hne (by decide)
      simp only [Except.toOption, Option.map_some', Option.getD_some]
      constructor
      · rw [hoh']
        simp only [Option.getD_some]
        rw [hdir5]
        rfl
      · exact hchar
